import Mathlib

/-!
Verification development for the affine iteration-map detector
(`src/arith/iter_affine_map.cc`).

The embedding models the detector on the subdomain where every scalar
(lower factor, extent, scale, base, bound) is an integer constant
(`IntImm`).  On that subdomain the C++ `PrimExpr` arithmetic helpers
(`operator+`, `operator*`, `floordiv`, `max`, ...) constant-fold to exact
integer arithmetic, and the external analyzer's `CanProveEqual` /
`CanProveDivisible` are exact decidable checks (the constant path
`clhs->value % crhs->value == 0` in `CanProveDivisible`), so the embedding
below uses `Int` for those fields and plain decidable comparisons for the
analyzer calls.  `floordiv` / `floormod` in the source are floor-division
and floor-modulus, i.e. `Int.fdiv` / `Int.fmod`.

`IterMark` objects are mutable shared nodes compared by object identity;
they are modelled as indices into an arena (`List IterMarkData`), exactly
as suggested by the spec's design notes for targets without pointer
identity.  In-place updates (`CopyOnWrite` on a shared mark) become arena
updates.
-/

namespace IterMap

/-- Model of `IterSplitExprNode`: a slice of an `IterMark` (the mark is an
arena index), denoting `floormod(floordiv(source, lowerFactor), extent) * scale`. -/
structure IterSplitExpr where
  source : Nat
  lowerFactor : Int
  extent : Int
  scale : Int
deriving DecidableEq, Repr

/-- Denotation of an `IterSplitExpr` whose mark has value `s`:
`floormod(floordiv(s, lower_factor), extent) * scale` (see the doc of
`IterSplitExprNode` and `IterMapToExprNormalizer::ConvertIterSplitExpr`). -/
def splitDenote (s L E scale : Int) : Int :=
  Int.fmod (Int.fdiv s L) E * scale

/-- Model of `IterMapRewriter::CanProveDivisible` on two integer constants:
`clhs->value % crhs->value == 0`.  (The truncated `%` of C++ and `Int.emod`
have the same zero set, so the check is stated with `Int.emod`.) -/
def canProveDivisible (lhs rhs : Int) : Bool :=
  Int.emod lhs rhs == 0

/-- Result of `IterMapRewriter::SplitFloorDivConst`: either an updated
split, or the unresolved-failure path (the source marks the rewrite as
unresolved and returns the original expression). -/
inductive DivRes where
  | upd (s : IterSplitExpr)
  | fail
deriving DecidableEq, Repr

/-- Result of `IterMapRewriter::SplitFloorModConst`: a zero constant, an
updated split, or the unresolved-failure path. -/
inductive ModRes where
  | zero
  | upd (s : IterSplitExpr)
  | fail
deriving DecidableEq, Repr

/-- The tail of `SplitFloorDivConst` past the scale handling:
`floordiv(x, rhs)` where `x = floormod(floordiv(iter, lower_factor), extent)`.
Requires `extent` divisible by `rhs`; on success the lower factor is
multiplied by `rhs` and the extent divided by it. -/
def splitFloorDivCore (lhs : IterSplitExpr) (rhs : Int) : DivRes :=
  if canProveDivisible lhs.extent rhs then
    .upd { lhs with lowerFactor := lhs.lowerFactor * rhs,
                    extent := Int.fdiv lhs.extent rhs }
  else
    .fail

/-- Model of `IterMapRewriter::SplitFloorDivConst`. -/
def splitFloorDivConst (lhs : IterSplitExpr) (rhs : Int) : DivRes :=
  if rhs = 1 then .upd lhs
  else if lhs.scale ≠ 1 then
    if canProveDivisible lhs.scale rhs then
      .upd { lhs with scale := Int.fdiv lhs.scale rhs }
    else if canProveDivisible rhs lhs.scale then
      splitFloorDivCore { lhs with scale := 1 } (Int.fdiv rhs lhs.scale)
    else .fail
  else splitFloorDivCore lhs rhs

/-- The tail of `SplitFloorModConst` past the scale handling:
`floormod(x, rhs)` where `x = floormod(floordiv(iter, lower_factor), extent)`.
Requires `extent` divisible by `rhs`; on success the extent becomes `rhs`
(lower factor and scale unchanged). -/
def splitFloorModCore (lhs : IterSplitExpr) (rhs : Int) : ModRes :=
  if canProveDivisible lhs.extent rhs then
    .upd { lhs with extent := rhs }
  else
    .fail

/-- Model of `IterMapRewriter::SplitFloorModConst`.  Note that in the
`scale ≠ 1`, `rhs` divisible-by-`scale` branch the source keeps the
original scale (`floormod(x*c1, c1*c2) = floormod(x, c2) * c1`). -/
def splitFloorModConst (lhs : IterSplitExpr) (rhs : Int) : ModRes :=
  if rhs = 1 then .zero
  else if lhs.scale ≠ 1 then
    if canProveDivisible lhs.scale rhs then .zero
    else if canProveDivisible rhs lhs.scale then
      splitFloorModCore lhs (Int.fdiv rhs lhs.scale)
    else .fail
  else splitFloorModCore lhs rhs

/-- Model of the analyzer's `CanProveEqual` on two integer constants. -/
def canProveEqual (a b : Int) : Bool := a == b

/-- Structural equality `IterSplitEqual` of the source, with the
`check_scale` flag; `source.same_as` (object identity) is equality of
arena indices. -/
def iterSplitEqual (lhs rhs : IterSplitExpr) (checkScale : Bool) : Bool :=
  lhs.source == rhs.source && lhs.lowerFactor == rhs.lowerFactor &&
    (!checkScale || lhs.scale == rhs.scale) && lhs.extent == rhs.extent

/-! #### `IterMapRewriter::TryNormalizeSplits`

The C++ walks an index-based `used` vector; the model carries the splits
paired with their used flag.  Picking a split marks the first unused
occurrence of it, which is observationally the same as marking the picked
index (equal unused entries are interchangeable for every later step). -/

/-- One step of the inner search loop of `TryNormalizeSplits`: the first
unused split whose lower factor equals the expected one (`CanProveEqual`),
marked used. -/
def pickEq : List (IterSplitExpr × Bool) → Int →
    Option (List (IterSplitExpr × Bool) × IterSplitExpr)
  | [], _ => none
  | (s, u) :: r, e =>
    if !u && canProveEqual s.lowerFactor e then some ((s, true) :: r, s)
    else
      match pickEq r e with
      | some (r2, sp) => some ((s, u) :: r2, sp)
      | none => none

/-- Mark the first unused occurrence of `sp` as used. -/
def markFirstUnused : List (IterSplitExpr × Bool) → IterSplitExpr →
    Option (List (IterSplitExpr × Bool))
  | [], _ => none
  | (s, u) :: r, sp =>
    if !u && s == sp then some ((s, true) :: r)
    else
      match markFirstUnused r sp with
      | some r2 => some ((s, u) :: r2)
      | none => none

/-- The selection scan of `SearchSkipLowerFactor`: every unused split must
have its lower factor divisible by the expected one (else the whole search
fails), and among them the one with the smallest lower factor (by the
divisibility comparison of the source) is kept. -/
def skipSelect : List (IterSplitExpr × Bool) → Int → Option IterSplitExpr →
    Option (Option IterSplitExpr)
  | [], _, acc => some acc
  | (s, u) :: r, e, acc =>
    if u then skipSelect r e acc
    else if !(canProveDivisible s.lowerFactor e) then none
    else
      skipSelect r e
        (match acc with
         | none => some s
         | some res =>
           if canProveDivisible res.lowerFactor s.lowerFactor then some s
           else some res)

/-- `SearchSkipLowerFactor`, returning the picked split with the used
vector updated. -/
def pickSkip (items : List (IterSplitExpr × Bool)) (e : Int) :
    Option (List (IterSplitExpr × Bool) × IterSplitExpr) :=
  match skipSelect items e none with
  | none => none
  | some none => none
  | some (some sp) =>
    match markFirstUnused items sp with
    | some items2 => some (items2, sp)
    | none => none

/-- The main loop of `TryNormalizeSplits`: `splits.size()` iterations,
each picking one unused split (by expected lower factor, or in
non-bijective mode by the skip search) and advancing the expected lower
factor to `lower_factor * extent` of the picked split. -/
def tnsLoop (bij : Bool) : Nat → List (IterSplitExpr × Bool) → Int →
    List IterSplitExpr → Option (List IterSplitExpr × Int)
  | 0, _, expected, acc => some (acc, expected)
  | fuel+1, items, expected, acc =>
    match pickEq items expected with
    | some (items2, sp) =>
      tnsLoop bij fuel items2 (sp.lowerFactor * sp.extent) (acc ++ [sp])
    | none =>
      if bij then none
      else
        match pickSkip items expected with
        | some (items2, sp) =>
          tnsLoop bij fuel items2 (sp.lowerFactor * sp.extent) (acc ++ [sp])
        | none => none

/-- Model of `IterMapRewriter::TryNormalizeSplits`.  `none` models the
empty array returned on failure; on success the verified splits are
returned from outermost to innermost order. -/
def tryNormalizeSplits (markExtent : Int) (splits : List IterSplitExpr)
    (bij : Bool) : Option (List IterSplitExpr) :=
  match tnsLoop bij splits.length (splits.map (fun s => (s, false))) 1 [] with
  | none => none
  | some (iters, expected) =>
    if (bij && canProveEqual expected markExtent) ||
       (!bij && canProveDivisible markExtent expected) then
      some iters.reverse
    else none

/-- Two splits of one mark occupy disjoint ranges (the spec's
disjointness property). -/
def SplitDisjoint (a b : IterSplitExpr) : Prop :=
  a.lowerFactor * a.extent ≤ b.lowerFactor ∨ b.lowerFactor * b.extent ≤ a.lowerFactor

/-- `IsChain c l c2`: the splits of `l`, listed innermost first, form a
consecutive chain of slices starting at lower factor `c`, ending with
expected lower factor `c2` (each split's lower factor is the previous
expected value, and the next expected value multiplies in its extent). -/
def IsChain : Int → List IterSplitExpr → Int → Prop
  | c, [], c2 => c2 = c
  | c, s :: r, c2 => s.lowerFactor = c ∧ IsChain (c * s.extent) r c2

/-- The splits whose used flag is set. -/
def selectedSplits (l : List (IterSplitExpr × Bool)) : List IterSplitExpr :=
  (l.filter (fun p => p.2)).map Prod.fst

/-- The number of splits whose used flag is not set. -/
def unusedCount (l : List (IterSplitExpr × Bool)) : Nat :=
  (l.filter (fun p => !p.2)).length

/-! ## The rewriter pipeline

The remaining definitions embed the `DetectIterMap` pipeline: the host
expression tree, the `IterMapRewriter` (constructor, visitors, fuser,
normalisers), the predicate splitter `MatchBoundConstraints`, the
collector, `CheckMapping`, `CheckConstraints` and the `DetectIterMap`
glue.  Marks live in an arena (`RewriterState.marks`); the hash maps of
the rewriter are association lists over structural equality, which is
what the `IterSumHash`/`IterSumEqual` pair computes (hash collisions are
arbitrated by equality).  The embedding covers the integer-constant
subdomain: every non-iterator scalar is an `IntImm`.  `asIntImm` extracts
such a constant (its default is never reached on that subdomain). -/

/-- Host integer expression tree (the `PrimExpr` constructors the
detector handles: variable, integer immediate, add, sub, mul, floordiv,
floormod). -/
inductive PrimExpr where
  | var (v : Nat)
  | intImm (v : Int)
  | add (a b : PrimExpr)
  | sub (a b : PrimExpr)
  | mul (a b : PrimExpr)
  | floordiv (a b : PrimExpr)
  | floormod (a b : PrimExpr)
deriving DecidableEq, Repr

/-- Model of `IterSumExprNode`: `(Σ args) + base`, with the base an
integer constant on the modelled subdomain. -/
structure IterSumExpr where
  args : List IterSplitExpr
  base : Int
deriving DecidableEq, Repr

/-- A mutated expression: a plain host expression or one of the two
canonical `IterMapExpr` node kinds. -/
inductive RExpr where
  | prim (e : PrimExpr)
  | split (s : IterSplitExpr)
  | sum (s : IterSumExpr)
deriving DecidableEq, Repr

/-- `IsInstance<IterMapExprNode>`. -/
def RExpr.isCanon : RExpr → Bool
  | .prim _ => false
  | .split _ => true
  | .sum _ => true

/-- The source expression of an `IterMark`: a plain expression (an input
iterator variable, possibly shifted by its minimum) or a canonical sum. -/
inductive MarkSource where
  | expr (e : PrimExpr)
  | sum (s : IterSumExpr)
deriving DecidableEq, Repr

/-- Model of `IterMarkNode`: source and extent.  Marks are arena slots;
`CopyOnWrite` updates of a shared mark become arena updates. -/
structure IterMarkData where
  source : MarkSource
  extent : Int
deriving DecidableEq, Repr

/-- An input iterator range (`Range(min, extent)`), integer constants. -/
structure RangeI where
  min : Int
  extent : Int
deriving DecidableEq, Repr

/-- Association-list find keyed by structural equality (the model of the
rewriter's `unordered_map` lookups). -/
def afind {κ β : Type} [DecidableEq κ] : List (κ × β) → κ → Option β
  | [], _ => none
  | (k, v) :: r, key => if k = key then some v else afind r key

/-- Association-list store (`map[key] = v`: overwrite or append). -/
def aset {κ β : Type} [DecidableEq κ] : List (κ × β) → κ → β → List (κ × β)
  | [], key, v => [(key, v)]
  | (k, w) :: r, key, v =>
    if k = key then (key, v) :: r else (k, w) :: aset r key v

/-- Association-list erase (`map.erase(key)`). -/
def aerase {κ β : Type} [DecidableEq κ] : List (κ × β) → κ → List (κ × β)
  | [], _ => []
  | (k, w) :: r, key => if k = key then r else (k, w) :: aerase r key

/-- The whole mutable state of one `IterMapRewriter`: the mark arena, the
variable map, the input marks, the flattened-form fuse map
(`sum_fuse_map_`), the structured-to-flattened map (`flattened_map_`),
the flattened constraint list (`constrained_iters_flattened_`), and the
unresolved counter. -/
structure RewriterState where
  marks : List IterMarkData
  varMap : List (Nat × RExpr)
  inputMarks : List Nat
  sumFuseMap : List (IterSumExpr × (Nat × Int))
  flattenedMap : List (IterSumExpr × IterSumExpr)
  constrained : List IterSumExpr
  unresolved : Nat
deriving DecidableEq, Repr

/-- Unreachable-default split (stands in for `ICHECK`-guarded accesses). -/
def junkSplit : IterSplitExpr := ⟨0, 1, 1, 1⟩

/-- Unreachable-default mark. -/
def junkMark : IterMarkData := ⟨.expr (.intImm 0), 0⟩

/-- Read a mark from the arena. -/
def markAt (s : RewriterState) (m : Nat) : IterMarkData :=
  (s.marks.get? m).getD junkMark

/-- The current extent of an arena mark. -/
def markExtent (s : RewriterState) (m : Nat) : Int := (markAt s m).extent

/-- `IterSplitExpr(IterMark source)`: lower factor and scale 1, extent of
the mark (the identity slice of its mark). -/
def iterSplitOfMark (m : Nat) (extent : Int) : IterSplitExpr :=
  ⟨m, 1, extent, 1⟩

/-- `IterSplitExpr(IterMark source, PrimExpr scale)`: lower factor 1,
extent of the mark, given scale. -/
def iterSplitOfMarkScale (m : Nat) (extent scale : Int) : IterSplitExpr :=
  ⟨m, 1, extent, scale⟩

/-- Extract the integer constant of a plain expression.  On the modelled
subdomain every plain (non-canonical) expression reaching a base / scale
position is an `IntImm`; the default is never reached there. -/
def asIntImm : PrimExpr → Int
  | .intImm v => v
  | _ => 0

/-- Turn a mutated expression back into a plain one (only used on
non-canonical results, where it is the identity). -/
def RExpr.toPrim : RExpr → PrimExpr
  | .prim e => e
  | .split _ => .intImm 0
  | .sum _ => .intImm 0

/-- `IterMapRewriter::ToIterSumExpr`. -/
def toIterSumExpr : RExpr → IterSumExpr
  | .sum s => s
  | .split sp => ⟨[sp], 0⟩
  | .prim e => ⟨[], asIntImm e⟩

/-- The empty rewriter state. -/
def emptyState : RewriterState := ⟨[], [], [], [], [], [], 0⟩

/-- The `IterMapRewriter` constructor: pre-build the canonical form of
each input iterator.  Extent-one iterators become the constant sum
`IterSum({}, min)` with no mark; zero-min iterators a bare identity
split of a fresh mark over the variable; the rest a sum with base `min`
over a mark for `var - min`. -/
def initState (iters : List (Nat × RangeI)) : RewriterState :=
  iters.foldl
    (fun s kv =>
      let v := kv.1
      let rng := kv.2
      if rng.extent = 1 then
        { s with varMap := s.varMap ++ [(v, .sum ⟨[], rng.min⟩)] }
      else if rng.min = 0 then
        let id := s.marks.length
        { s with
          marks := s.marks ++ [⟨.expr (.var v), rng.extent⟩],
          varMap := s.varMap ++ [(v, .split (iterSplitOfMark id rng.extent))],
          inputMarks := s.inputMarks ++ [id] }
      else
        let id := s.marks.length
        { s with
          marks := s.marks ++ [⟨.expr (.sub (.var v) (.intImm rng.min)), rng.extent⟩],
          varMap := s.varMap ++ [(v, .sum ⟨[iterSplitOfMark id rng.extent], rng.min⟩)],
          inputMarks := s.inputMarks ++ [id] })
    emptyState

/-! #### Constant folding (`TryConstFold`, from the expression helpers
the detector calls; that header is not part of this source file, so these
are Modelled from the spec: "Try constant folding", with the standard
TVM foldings of immediates and of the 0/1 identities). -/

/-- Constant fold for `Add`. -/
def tryConstFoldAdd : RExpr → RExpr → Option RExpr
  | .prim (.intImm a), .prim (.intImm b) => some (.prim (.intImm (a + b)))
  | .prim (.intImm 0), b => some b
  | a, .prim (.intImm 0) => some a
  | _, _ => none

/-- Constant fold for `Sub`. -/
def tryConstFoldSub : RExpr → RExpr → Option RExpr
  | .prim (.intImm a), .prim (.intImm b) => some (.prim (.intImm (a - b)))
  | a, .prim (.intImm 0) => some a
  | _, _ => none

/-- Constant fold for `Mul`. -/
def tryConstFoldMul : RExpr → RExpr → Option RExpr
  | .prim (.intImm a), .prim (.intImm b) => some (.prim (.intImm (a * b)))
  | .prim (.intImm 1), b => some b
  | .prim (.intImm 0), _ => some (.prim (.intImm 0))
  | a, .prim (.intImm 1) => some a
  | _, .prim (.intImm 0) => some (.prim (.intImm 0))
  | _, _ => none

/-- Constant fold for `FloorDiv`. -/
def tryConstFoldFloorDiv : RExpr → RExpr → Option RExpr
  | .prim (.intImm a), .prim (.intImm b) =>
    if b = 0 then none else some (.prim (.intImm (Int.fdiv a b)))
  | a, .prim (.intImm 1) => some a
  | _, _ => none

/-- Constant fold for `FloorMod`. -/
def tryConstFoldFloorMod : RExpr → RExpr → Option RExpr
  | .prim (.intImm a), .prim (.intImm b) =>
    if b = 0 then none else some (.prim (.intImm (Int.fmod a b)))
  | _, .prim (.intImm 1) => some (.prim (.intImm 0))
  | _, _ => none

/-! #### Merging (`AddToLhs`, `MulToLhs`) -/

/-- The argument scan of `AddToLhs` for a split: merge into an existing
entry with the same `(source, lower_factor, extent)` by adding or
subtracting the scale, else append (negated for subtraction). -/
def addArgs : List IterSplitExpr → IterSplitExpr → Int → List IterSplitExpr
  | [], rhs, sign =>
    if sign > 0 then [rhs] else [{ rhs with scale := 0 - rhs.scale }]
  | lv :: r, rhs, sign =>
    if lv.source = rhs.source ∧ lv.lowerFactor = rhs.lowerFactor ∧
        lv.extent = rhs.extent then
      (if sign > 0 then { rhs with scale := lv.scale + rhs.scale }
       else { rhs with scale := lv.scale - rhs.scale }) :: r
    else lv :: addArgs r rhs sign

/-- `AddToLhs` for an `IterSplitExpr`. -/
def addToLhsSplit (lhs : IterSumExpr) (rhs : IterSplitExpr) (sign : Int) :
    IterSumExpr :=
  { lhs with args := addArgs lhs.args rhs sign }

/-- `AddToLhs` for an `IterSumExpr`: merge every split, then adjust the
base with the sign. -/
def addToLhsSum (lhs : IterSumExpr) (rhs : IterSumExpr) (sign : Int) :
    IterSumExpr :=
  let merged := rhs.args.foldl (fun acc arg => addToLhsSplit acc arg sign) lhs
  { merged with
    base := if sign > 0 then merged.base + rhs.base else merged.base - rhs.base }

/-- `MulToLhs`: scale every split and the base. -/
def mulToLhs (lhs : IterSumExpr) (c : Int) : IterSumExpr :=
  { args := lhs.args.map (fun a => { a with scale := a.scale * c }),
    base := lhs.base * c }

/-! #### `TryFuseIters` -/

/-- Step 0 of `TryFuseIters`: the argument with the smallest integer
scale (every scale is an integer constant on the modelled subdomain; the
strict comparison keeps the earliest minimum). -/
def findBaseScale (args : List IterSplitExpr) : Option (Nat × Int) :=
  go args 0 none
where
  go : List IterSplitExpr → Nat → Option (Nat × Int) → Option (Nat × Int)
  | [], _, acc => acc
  | a :: r, i, acc =>
    go r (i + 1)
      (match acc with
       | none => some (i, a.scale)
       | some (bi, bv) => if a.scale < bv then some (i, a.scale) else some (bi, bv))

/-- Search for the first index `j ≥ start` satisfying `p`, with fuel. -/
def searchFrom (p : Nat → Bool) : Nat → Nat → Option Nat
  | 0, _ => none
  | fuel+1, j => if p j then some j else searchFrom p fuel (j + 1)

/-- The `j` scan of the fuse loop: the first unvisited argument from
`start` whose scale equals the expected scale. -/
def findScaleFrom (args : List IterSplitExpr) (visited : List Bool)
    (start : Nat) (expected : Int) : Option Nat :=
  searchFrom
    (fun j =>
      j < args.length &&
      !((visited.get? j).getD true) &&
      canProveEqual (((args.get? j).getD junkSplit).scale) expected)
    (args.length - start) start

/-- The longest memoised flattened constraint whose innermost split
matches the given argument (scale ignored); constraints are scanned in
registration order, a strictly longer match replacing the current one. -/
def findConstraint (constrained : List IterSumExpr) (argJ : IterSplitExpr) :
    Option IterSumExpr :=
  constrained.foldl
    (fun best iter =>
      match iter.args.getLast? with
      | some lastA =>
        if iterSplitEqual argJ lastA false then
          match best with
          | none => some iter
          | some b =>
            if b.args.length < iter.args.length then some iter else some b
        else best
      | none => best)
    none

/-- Find an unvisited argument equal (scale ignored) to the constraint
split with the matching scale product (`constraint scale * expected =
argument scale`). -/
def findMatch (args : List IterSplitExpr) (visited : List Bool)
    (csplit : IterSplitExpr) (expectedScale : Int) : Option Nat :=
  searchFrom
    (fun k =>
      k < args.length &&
      !((visited.get? k).getD true) &&
      iterSplitEqual ((args.get? k).getD junkSplit) csplit false &&
      canProveEqual (csplit.scale * expectedScale)
        (((args.get? k).getD junkSplit).scale))
    args.length 0

/-- Consume the splits of a matched constraint (innermost to outermost),
marking the matched arguments visited and pushing them onto the
flattened list. -/
def consumeConstraint (args : List IterSplitExpr) :
    List IterSplitExpr → List Bool → List IterSplitExpr → Int →
    Option (List Bool × List IterSplitExpr)
  | [], visited, flat, _ => some (visited, flat)
  | c :: rest, visited, flat, expSc =>
    match findMatch args visited c expSc with
    | none => none
    | some k =>
      consumeConstraint args rest (visited.set k true)
        (flat ++ [(args.get? k).getD junkSplit]) expSc

/-- The cursor loop of `TryFuseIters` (fuelled; the cursor advances by at
least one argument per iteration, so `args.length` fuel suffices).
Returns the flattened and grouped lists (innermost first), the final
expected scale and the extra base. -/
def fuseLoop (s : RewriterState) (args : List IterSplitExpr)
    (baseIndex : Nat) :
    Nat → Nat → List Bool → List IterSplitExpr → List IterSplitExpr →
    Int → Int →
    Option (List IterSplitExpr × List IterSplitExpr × Int × Int)
  | 0, i, _, flat, grp, expSc, extra =>
    if args.length ≤ i then some (flat, grp, expSc, extra) else none
  | fuel+1, i, visited, flat, grp, expSc, extra =>
    if args.length ≤ i then some (flat, grp, expSc, extra)
    else
      match findScaleFrom args visited (if i = 0 then baseIndex else 0) expSc with
      | none => none
      | some j =>
        let argJ := (args.get? j).getD junkSplit
        match findConstraint s.constrained argJ with
        | some cstr =>
          match consumeConstraint args cstr.args.reverse visited flat expSc with
          | none => none
          | some (visited2, flat2) =>
            match afind s.sumFuseMap cstr with
            | some (markId, offset) =>
              fuseLoop s args baseIndex fuel (i + cstr.args.length) visited2
                flat2 (grp ++ [iterSplitOfMarkScale markId (markExtent s markId) expSc])
                (expSc * markExtent s markId) (extra + offset * expSc)
            | none => none
        | none =>
          fuseLoop s args baseIndex fuel (i + 1) (visited.set j true)
            (flat ++ [argJ]) (grp ++ [argJ]) (expSc * argJ.extent) extra

/-- Model of `IterMapRewriter::TryFuseIters`.  The state changes only on
the miss path, where a fresh mark is minted and both memo tables are
extended; failures leave the state unchanged (`TryFuseIters` itself only
emits diagnostics, the callers bump the unresolved counter). -/
def tryFuseIters (s : RewriterState) (expr : IterSumExpr) :
    RewriterState × Option IterSumExpr :=
  match findBaseScale expr.args with
  | none => (s, none)
  | some (baseIndex, baseScale) =>
    match fuseLoop s expr.args baseIndex expr.args.length 0
        (List.replicate expr.args.length false) [] [] baseScale 0 with
    | none => (s, none)
    | some (flat, grp, expSc, extra) =>
      let flattenedForm : IterSumExpr := ⟨flat.reverse, 0⟩
      let structuredForm : IterSumExpr := ⟨grp.reverse, 0⟩
      match afind s.sumFuseMap flattenedForm with
      | some (markId, offset) =>
        if canProveEqual extra (offset * baseScale) then
          (s, some ⟨[iterSplitOfMarkScale markId (markExtent s markId) baseScale],
                    expr.base + extra⟩)
        else (s, none)
      | none =>
        let newId := s.marks.length
        let ext := Int.tdiv expSc baseScale
        ({ s with
           marks := s.marks ++ [⟨.sum structuredForm, ext⟩],
           sumFuseMap := aset s.sumFuseMap flattenedForm (newId, 0),
           flattenedMap := aset s.flattenedMap structuredForm flattenedForm },
         some ⟨[iterSplitOfMarkScale newId ext baseScale], expr.base + extra⟩)

/-! #### Normalisation and the expression visitors -/

/-- `Fail`: bump the unresolved counter (diagnostics are not modelled). -/
def failState (s : RewriterState) : RewriterState :=
  { s with unresolved := s.unresolved + 1 }

/-- `NormalizeToIterWithOffset`. -/
def normalizeToIterWithOffset (s : RewriterState) (expr : IterSumExpr) :
    RewriterState × IterSumExpr :=
  if expr.args.length < 1 then (s, expr)
  else
    match tryFuseIters s expr with
    | (s1, some v) => (s1, v)
    | (s1, none) => (failState s1, expr)

/-- `NormalizeToIterOnBoundExpr`: strip the base into the induced bounds,
fuse, resolve the structured form through the two memo tables, tighten
the mark in place (extent, and base/offset when the tightened minimum is
non-zero), re-register, and record the flattened constraint.  The
`ICHECK`-guarded lookups are unreachable on this path and routed to the
failure branch. -/
def normalizeToIterOnBoundExpr (s : RewriterState) (expr : IterSumExpr)
    (pmin pmax : Option Int) : RewriterState × IterSumExpr :=
  let base := expr.base
  let expr1 := if base ≠ 0 then { expr with base := 0 } else expr
  let pmin1 := if base ≠ 0 then pmin.map (fun m => m - base) else pmin
  let pmax1 := if base ≠ 0 then pmax.map (fun m => m - base) else pmax
  if expr1.args.length < 1 then (s, expr1)
  else
    match tryFuseIters s expr1 with
    | (s1, some fused) =>
      let split := fused.args.headD junkSplit
      if split.scale = 1 then
        match (markAt s1 split.source).source with
        | .sum structured =>
          match afind s1.flattenedMap structured with
          | some flattened =>
            match afind s1.sumFuseMap flattened with
            | some (markId, offset) =>
              let iterMin0 := offset
              let iterMax0 := offset + markExtent s1 markId
              let iterMin :=
                match pmin1 with
                | some m => max m iterMin0
                | none => iterMin0
              let iterMax :=
                match pmax1 with
                | some m => min m iterMax0
                | none => iterMax0
              let s2 :=
                if iterMin ≠ 0 then
                  let structured2 := { structured with base := 0 - iterMin }
                  { s1 with
                    flattenedMap :=
                      aset (aerase s1.flattenedMap structured) structured2 flattened,
                    marks := s1.marks.set markId
                      ⟨.sum structured2, markExtent s1 markId⟩ }
                else s1
              let s3 :=
                { s2 with
                  marks := s2.marks.set markId
                    ⟨(markAt s2 markId).source, iterMax - iterMin⟩,
                  sumFuseMap := aset s2.sumFuseMap flattened (markId, iterMin),
                  constrained := s2.constrained ++ [flattened] }
              (s3, { expr1 with args := [split], base := base + iterMin })
            | none => (failState s1, expr1)
          | none => (failState s1, expr1)
        | _ => (failState s1, expr1)
      else (failState s1, expr1)
    | (s1, none) => (failState s1, expr1)

/-- The `Add` visitor past the recursive mutation of the operands. -/
def visitAdd (s : RewriterState) (ra rb : RExpr) : RewriterState × RExpr :=
  match tryConstFoldAdd ra rb with
  | some r => (s, r)
  | none =>
    if !ra.isCanon && !rb.isCanon then
      (s, .prim (.add ra.toPrim rb.toPrim))
    else
      let ret := toIterSumExpr ra
      match rb with
      | .prim e => (s, .sum { ret with base := ret.base + asIntImm e })
      | .sum t => (s, .sum (addToLhsSum ret t 1))
      | .split sp => (s, .sum (addToLhsSplit ret sp 1))

/-- The `Sub` visitor past the recursive mutation of the operands. -/
def visitSub (s : RewriterState) (ra rb : RExpr) : RewriterState × RExpr :=
  match tryConstFoldSub ra rb with
  | some r => (s, r)
  | none =>
    if !ra.isCanon && !rb.isCanon then
      (s, .prim (.sub ra.toPrim rb.toPrim))
    else
      let ret := toIterSumExpr ra
      match rb with
      | .prim e => (s, .sum { ret with base := ret.base - asIntImm e })
      | .sum t => (s, .sum (addToLhsSum ret t (-1)))
      | .split sp => (s, .sum (addToLhsSplit ret sp (-1)))

/-- The `Mul` visitor past the recursive mutation of the operands.
`orig` is the original node, returned on the unresolved paths. -/
def visitMul (s : RewriterState) (ra rb : RExpr) (orig : PrimExpr) :
    RewriterState × RExpr :=
  match tryConstFoldMul ra rb with
  | some r => (s, r)
  | none =>
    if !ra.isCanon && !rb.isCanon then
      (s, .prim (.mul ra.toPrim rb.toPrim))
    else if ra.isCanon && rb.isCanon then
      (failState s, .prim orig)
    else
      let (ca, cb) := if ra.isCanon then (ra, rb) else (rb, ra)
      match ca with
      | .sum t => (s, .sum (mulToLhs t (asIntImm cb.toPrim)))
      | .split sp => (s, .split { sp with scale := sp.scale * asIntImm cb.toPrim })
      | .prim _ => (s, .prim orig)

/-- The `FloorDiv` visitor past the recursive mutation of the operands. -/
def visitFloorDiv (s : RewriterState) (ra rb : RExpr) (orig : PrimExpr) :
    RewriterState × RExpr :=
  match tryConstFoldFloorDiv ra rb with
  | some r => (s, r)
  | none =>
    if !ra.isCanon && !rb.isCanon then
      (s, .prim (.floordiv ra.toPrim rb.toPrim))
    else if rb.isCanon then
      (failState s, .prim orig)
    else
      match ra with
      | .sum t =>
        match tryFuseIters s t with
        | (s1, some fused) =>
          if fused.base ≠ 0 then (failState s1, .prim orig)
          else
            match splitFloorDivConst (fused.args.headD junkSplit)
                (asIntImm rb.toPrim) with
            | .upd sp => (s1, .split sp)
            | .fail => (failState s1, .prim orig)
        | (s1, none) => (failState s1, .prim orig)
      | .split sp =>
        match splitFloorDivConst sp (asIntImm rb.toPrim) with
        | .upd sp2 => (s, .split sp2)
        | .fail => (failState s, .prim orig)
      | .prim _ => (s, .prim orig)

/-- The `FloorMod` visitor past the recursive mutation of the operands. -/
def visitFloorMod (s : RewriterState) (ra rb : RExpr) (orig : PrimExpr) :
    RewriterState × RExpr :=
  match tryConstFoldFloorMod ra rb with
  | some r => (s, r)
  | none =>
    if !ra.isCanon && !rb.isCanon then
      (s, .prim (.floormod ra.toPrim rb.toPrim))
    else if rb.isCanon then
      (failState s, .prim orig)
    else
      match ra with
      | .sum t =>
        match tryFuseIters s t with
        | (s1, some fused) =>
          if fused.base ≠ 0 then (failState s1, .prim orig)
          else
            match splitFloorModConst (fused.args.headD junkSplit)
                (asIntImm rb.toPrim) with
            | .zero => (s1, .prim (.intImm 0))
            | .upd sp => (s1, .split sp)
            | .fail => (failState s1, .prim orig)
        | (s1, none) => (failState s1, .prim orig)
      | .split sp =>
        match splitFloorModConst sp (asIntImm rb.toPrim) with
        | .zero => (s, .prim (.intImm 0))
        | .upd sp2 => (s, .split sp2)
        | .fail => (failState s, .prim orig)
      | .prim _ => (s, .prim orig)

/-- `DirectMutate` (the `ExprMutator` recursion over the handled node
kinds; a variable rewrites to its pre-built canonical form, an immediate
to itself). -/
def directMutate (s : RewriterState) : PrimExpr → RewriterState × RExpr
  | .var v =>
    (s, match afind s.varMap v with
        | some r => r
        | none => .prim (.var v))
  | .intImm c => (s, .prim (.intImm c))
  | .add a b =>
    let p1 := directMutate s a
    let p2 := directMutate p1.1 b
    visitAdd p2.1 p1.2 p2.2
  | .sub a b =>
    let p1 := directMutate s a
    let p2 := directMutate p1.1 b
    visitSub p2.1 p1.2 p2.2
  | .mul a b =>
    let p1 := directMutate s a
    let p2 := directMutate p1.1 b
    visitMul p2.1 p1.2 p2.2 (.mul a b)
  | .floordiv a b =>
    let p1 := directMutate s a
    let p2 := directMutate p1.1 b
    visitFloorDiv p2.1 p1.2 p2.2 (.floordiv a b)
  | .floormod a b =>
    let p1 := directMutate s a
    let p2 := directMutate p1.1 b
    visitFloorMod p2.1 p1.2 p2.2 (.floormod a b)

/-- `IterMapRewriter::Rewrite`. -/
def rewriteIndex (s : RewriterState) (e : PrimExpr) :
    RewriterState × IterSumExpr :=
  let p := directMutate s e
  normalizeToIterWithOffset p.1 (toIterSumExpr p.2)

/-- `IterMapRewriter::RewriteIterConstraint`. -/
def rewriteIterConstraint (s : RewriterState) (e : PrimExpr)
    (pmin pmax : Option Int) : RewriterState × IterSumExpr :=
  let p := directMutate s e
  normalizeToIterOnBoundExpr p.1 (toIterSumExpr p.2) pmin pmax

/-! #### `CheckConstraints` -/

/-- The inner state machine of `CheckConstraints` over one ordered pair
of flattened constraints: 0 start, -1 no intersection, 1 inclusion. -/
def ccArgsScan (args2 : List IterSplitExpr) :
    List IterSplitExpr → Int → Bool
  | [], _ => true
  | a :: rest, st =>
    let found := args2.any (fun b => iterSplitEqual a b true)
    if st = 0 then ccArgsScan args2 rest (if found then 1 else -1)
    else if (st = -1 && found) || (st = 1 && !found) then false
    else ccArgsScan args2 rest st

/-- All ordered pairs `i < j` of the flattened constraints pass the
inclusion-or-disjoint scan. -/
def ccAllPairs : List IterSumExpr → Bool
  | [] => true
  | c :: rest => rest.all (fun d => ccArgsScan d.args c.args 0) && ccAllPairs rest

/-- `IterMapRewriter::CheckConstraints`. -/
def checkConstraints (s : RewriterState) : Bool :=
  ccAllPairs s.constrained

/-! #### The collector and `CheckMapping` -/

/-- The result of `IterMarkSplitCollector`: visited marks, and the
outgoing splits referencing each mark. -/
structure CollectResult where
  visited : List Nat
  mark2splits : List (Nat × List IterSplitExpr)
deriving DecidableEq, Repr

/-- The splits collected for a mark. -/
def splitsOf (cr : CollectResult) (m : Nat) : List IterSplitExpr :=
  (afind cr.mark2splits m).getD []

/-- `mark2splits_[split->source].push_back(split)`. -/
def pushSplit (cr : CollectResult) (m : Nat) (sp : IterSplitExpr) :
    CollectResult :=
  { cr with mark2splits := aset cr.mark2splits m (splitsOf cr m ++ [sp]) }

/-- `IterMarkSplitCollector::CollectInternal` (fuelled: the mark graph is
a DAG, marks only reference earlier arena slots, so `marks.length` fuel
suffices). -/
def collectInternal (s : RewriterState) : Nat → Nat → CollectResult →
    CollectResult
  | 0, _, cr => cr
  | fuel+1, m, cr =>
    if m ∈ cr.visited then cr
    else
      let cr1 := { cr with visited := cr.visited ++ [m] }
      match (markAt s m).source with
      | .sum t =>
        t.args.foldl
          (fun acc sp => pushSplit (collectInternal s fuel sp.source acc) sp.source sp)
          cr1
      | .expr _ => cr1

/-- One collection step for a referencing split: collect its source mark,
then record the reference. -/
def collectStep (s : RewriterState) (fuel : Nat) (acc : CollectResult)
    (sp : IterSplitExpr) : CollectResult :=
  pushSplit (collectInternal s fuel sp.source acc) sp.source sp

/-- `IterMarkSplitCollector::Collect` over the bound sums. -/
def collect (s : RewriterState) (bindings : List IterSumExpr) : CollectResult :=
  bindings.foldl
    (fun cr sum => sum.args.foldl (collectStep s s.marks.length) cr)
    ⟨[], []⟩

/-- `IterMapRewriter::CheckMapping`: every visited mark normalises, and
in bijective mode every input mark is visited. -/
def checkMapping (s : RewriterState) (bindings : List IterSumExpr)
    (bij : Bool) : Bool :=
  let cr := collect s bindings
  cr.visited.all
    (fun m => (tryNormalizeSplits (markExtent s m) (splitsOf cr m) bij).isSome) &&
  (!bij || s.inputMarks.all (fun m => m ∈ cr.visited))

/-! #### The predicate splitter (`MatchBoundConstraints`) -/

/-- The four comparison kinds the splitter recognises. -/
inductive CmpKind where
  | lt
  | le
  | gt
  | ge
deriving DecidableEq, Repr

/-- A boolean predicate: an integer immediate (the literal `1` is the
trivial predicate), a recognised comparison, an unrecognised comparison
(equality), or a conjunction. -/
inductive BoolExpr where
  | lit (v : Int)
  | cmp (k : CmpKind) (a b : PrimExpr)
  | eqCmp (a b : PrimExpr)
  | band (a b : BoolExpr)
deriving DecidableEq, Repr

/-- `is_one(predicate)`. -/
def isOnePred : BoolExpr → Bool
  | .lit 1 => true
  | _ => false

/-- The pattern order of the splitter: `lt` before `le` before `gt`
before `ge`. -/
def kindRank : CmpKind → Nat
  | .lt => 0
  | .le => 1
  | .gt => 2
  | .ge => 3

/-- Peel one comparison off the conjunction, following the pattern order
of the source: for each kind, `rest && cmp` is tried before
`cmp && rest` before the bare comparison. -/
def peelCmp : BoolExpr → Option (CmpKind × PrimExpr × PrimExpr × Option BoolExpr)
  | .cmp k l r => some (k, l, r, none)
  | .band a b =>
    match a, b with
    | .cmp ka la ra, .cmp kb lb rb =>
      if kindRank kb ≤ kindRank ka then some (kb, lb, rb, some a)
      else some (ka, la, ra, some b)
    | _, .cmp kb lb rb => some (kb, lb, rb, some a)
    | .cmp ka la ra, _ => some (ka, la, ra, some b)
    | _, _ => none
  | _ => none

/-- `is_const_int`. -/
def isConstInt : PrimExpr → Bool
  | .intImm _ => true
  | _ => false

/-- `UsesVar` restricted to the input iterators. -/
def usesVarB (vars : List Nat) : PrimExpr → Bool
  | .var v => v ∈ vars
  | .intImm _ => false
  | .add a b => usesVarB vars a || usesVarB vars b
  | .sub a b => usesVarB vars a || usesVarB vars b
  | .mul a b => usesVarB vars a || usesVarB vars b
  | .floordiv a b => usesVarB vars a || usesVarB vars b
  | .floormod a b => usesVarB vars a || usesVarB vars b

/-- The folding `operator+` of the host expression helpers (exact on
immediates, identity on zero). -/
def pAdd (a b : PrimExpr) : PrimExpr :=
  match a, b with
  | .intImm x, .intImm y => .intImm (x + y)
  | .intImm 0, _ => b
  | _, .intImm 0 => a
  | _, _ => .add a b

/-- The folding `operator-` of the host expression helpers. -/
def pSub (a b : PrimExpr) : PrimExpr :=
  match a, b with
  | .intImm x, .intImm y => .intImm (x - y)
  | _, .intImm 0 => a
  | _, _ => .sub a b

/-- The `f_extract` walk of the splitter: split `lhs - rhs` into the
iterator-mentioning part (accumulated on the left) and the free part
(negated, accumulated on the right), walking over `+` and `-`. -/
def fExtract (vars : List Nat) :
    PrimExpr → Bool → PrimExpr × PrimExpr → PrimExpr × PrimExpr
  | .add a b, sign, acc => fExtract vars b sign (fExtract vars a sign acc)
  | .sub a b, sign, acc => fExtract vars b (!sign) (fExtract vars a sign acc)
  | part, sign, (lacc, racc) =>
    if usesVarB vars part then
      (if sign then pAdd lacc part else pSub lacc part, racc)
    else
      (lacc, if sign then pSub racc part else pAdd racc part)

/-- One bound constraint `lower ≤ iter < upper` (either bound may be
missing), with the node-count complexity filled in later. -/
structure IterConstraint where
  iter : PrimExpr
  lower : Option PrimExpr
  upper : Option PrimExpr
  size : Nat
deriving DecidableEq, Repr

/-- Build the constraint for one recognised comparison: decide which side
is the iterator expression (the side mentioning an input iterator; if
both do, run `f_extract` and simplify — the analyzer's `Simplify` is an
external black box and is modelled as the identity), then convert to the
inclusive-lower / exclusive-upper form. -/
def mkConstraint (vars : List Nat) (k : CmpKind) (lhsE rhsE : PrimExpr) :
    IterConstraint :=
  let isGreater := k = .gt ∨ k = .ge
  let isEqual := k = .le ∨ k = .ge
  let triple :=
    if isConstInt lhsE || !usesVarB vars lhsE then (true, lhsE, rhsE)
    else if isConstInt rhsE || !usesVarB vars rhsE then (false, lhsE, rhsE)
    else
      let p := fExtract vars (.sub lhsE rhsE) true (.intImm 0, .intImm 0)
      (false, p.1, p.2)
  let boundAtLeft := triple.1
  let lhs2 := triple.2.1
  let rhs2 := triple.2.2
  if isGreater then
    if boundAtLeft then
      ⟨rhs2, none, some (if isEqual then pAdd lhs2 (.intImm 1) else lhs2), 0⟩
    else
      ⟨lhs2, some (if isEqual then rhs2 else pAdd rhs2 (.intImm 1)), none, 0⟩
  else
    if boundAtLeft then
      ⟨rhs2, some (if isEqual then lhs2 else pAdd lhs2 (.intImm 1)), none, 0⟩
    else
      ⟨lhs2, none, some (if isEqual then pAdd rhs2 (.intImm 1) else rhs2), 0⟩

/-- Structural size of a predicate, used as peeling fuel. -/
def besize : BoolExpr → Nat
  | .lit _ => 1
  | .cmp _ _ _ => 1
  | .eqCmp _ _ => 1
  | .band a b => 1 + besize a + besize b

/-- The peeling loop of `MatchBoundConstraints` (fuelled by the predicate
size; each peel strictly shrinks the remaining conjunction). -/
def matchBCAux (vars : List Nat) : Nat → BoolExpr → Option (List IterConstraint)
  | 0, _ => none
  | fuel+1, p =>
    match peelCmp p with
    | none => none
    | some (k, l, r, rest) =>
      let c := mkConstraint vars k l r
      match rest with
      | none => some [c]
      | some restP =>
        match matchBCAux vars fuel restP with
        | some cs => some (c :: cs)
        | none => none

/-- Model of `MatchBoundConstraints`: the empty list models the empty
vector returned when any comparison fails to match. -/
def matchBoundConstraints (vars : List Nat) (p : BoolExpr) :
    List IterConstraint :=
  (matchBCAux vars (besize p + 1) p).getD []

/-! #### `DetectIterMap` -/

/-- Node count of an index expression.  Modelled from the spec:
`CalculateExprComplexity` (an external helper) records the node count of
the iterator expression, used only for sort ordering. -/
def countNodes : PrimExpr → Nat
  | .var _ => 1
  | .intImm _ => 1
  | .add a b => 1 + countNodes a + countNodes b
  | .sub a b => 1 + countNodes a + countNodes b
  | .mul a b => 1 + countNodes a + countNodes b
  | .floordiv a b => 1 + countNodes a + countNodes b
  | .floormod a b => 1 + countNodes a + countNodes b

/-- Insert into a sorted list (the sort of the constraints by ascending
complexity; `std::sort` with a strict weak order is deterministic on
distinct keys, and the runs in the theorems below use distinct sizes). -/
def insertBySize (x : IterConstraint) : List IterConstraint → List IterConstraint
  | [] => [x]
  | y :: r => if x.size < y.size then x :: y :: r else y :: insertBySize x r

/-- Sort the constraints by ascending complexity. -/
def sortBySize : List IterConstraint → List IterConstraint
  | [] => []
  | x :: r => insertBySize x (sortBySize r)

/-- Step 0.0 of `DetectIterMap`: rewrite the constraints in size order,
stopping at the first unresolved failure. -/
def rewriteConstraintsLoop :
    RewriterState → List IterConstraint → RewriterState × Bool
  | s, [] => (s, true)
  | s, c :: rest =>
    let p := rewriteIterConstraint s c.iter (c.lower.map asIntImm)
      (c.upper.map asIntImm)
    if p.1.unresolved ≠ 0 then (p.1, false)
    else rewriteConstraintsLoop p.1 rest

/-- Step 0.1 of `DetectIterMap`: rewrite the indices, stopping at the
first unresolved failure. -/
def rewriteIndicesLoop :
    RewriterState → List PrimExpr → RewriterState × List IterSumExpr × Bool
  | s, [] => (s, [], true)
  | s, e :: rest =>
    let p := rewriteIndex s e
    if p.1.unresolved ≠ 0 then (p.1, [], false)
    else
      match rewriteIndicesLoop p.1 rest with
      | (s2, sums, ok) => (s2, p.2 :: sums, ok)

/-- Model of `DetectIterMap`, returning the final rewriter state next to
the result (the state is internal in the source; it is exposed here so
the invariants of the returned sums can be stated over the mark arena).
`IterRangeSanityCheck` holds vacuously on the modelled subdomain, where
range bounds are integer constants and mention no iterator. -/
def detectIterMapFull (indices : List PrimExpr)
    (iters : List (Nat × RangeI)) (pred : BoolExpr) (bij : Bool) :
    RewriterState × List IterSumExpr :=
  let s0 := initState iters
  let vars := iters.map Prod.fst
  let constraints := matchBoundConstraints vars pred
  if !isOnePred pred && constraints.isEmpty then (s0, [])
  else
    let sized := constraints.map (fun c => { c with size := countNodes c.iter })
    let sorted := sortBySize sized
    match rewriteConstraintsLoop s0 sorted with
    | (s1, false) => (s1, [])
    | (s1, true) =>
      if !checkConstraints s1 then (s1, [])
      else
        match rewriteIndicesLoop s1 indices with
        | (s2, _, false) => (s2, [])
        | (s2, results, true) =>
          if !checkMapping s2 results bij then (s2, [])
          else (s2, results)

/-- The public `DetectIterMap` result. -/
def detectIterMap (indices : List PrimExpr) (iters : List (Nat × RangeI))
    (pred : BoolExpr) (bij : Bool) : List IterSumExpr :=
  (detectIterMapFull indices iters pred bij).2

/-! #### Evaluation and lowering (`IterMapToExprNormalizer`) -/

/-- Evaluation of a host expression under an environment (floordiv and
floormod are floor-division and floor-modulus). -/
def evalPrim (env : Nat → Int) : PrimExpr → Int
  | .var v => env v
  | .intImm c => c
  | .add a b => evalPrim env a + evalPrim env b
  | .sub a b => evalPrim env a - evalPrim env b
  | .mul a b => evalPrim env a * evalPrim env b
  | .floordiv a b => Int.fdiv (evalPrim env a) (evalPrim env b)
  | .floormod a b => Int.fmod (evalPrim env a) (evalPrim env b)

/-- The folding `operator*` of the host expression helpers. -/
def pMul (a b : PrimExpr) : PrimExpr :=
  match a, b with
  | .intImm x, .intImm y => .intImm (x * y)
  | .intImm 1, _ => b
  | .intImm 0, _ => .intImm 0
  | _, .intImm 1 => a
  | _, .intImm 0 => .intImm 0
  | _, _ => .mul a b

/-- The folding `floordiv` helper. -/
def pFloorDiv (a b : PrimExpr) : PrimExpr :=
  match a, b with
  | .intImm x, .intImm y => if y = 0 then .floordiv a b else .intImm (Int.fdiv x y)
  | _, .intImm 1 => a
  | _, _ => .floordiv a b

/-- The folding `floormod` helper. -/
def pFloorMod (a b : PrimExpr) : PrimExpr :=
  match a, b with
  | .intImm x, .intImm y => if y = 0 then .floormod a b else .intImm (Int.fmod x y)
  | _, .intImm 1 => .intImm 0
  | _, _ => .floormod a b

/-- `IterMapToExprNormalizer::ConvertIterSplitExpr` (fuelled on the mark
DAG depth).  A plain mark source (a variable, or a min-shifted variable)
lowers to itself; a sum source is lowered recursively; then the three
branches pick `source * scale`, `floordiv(source, lower_factor) * scale`
or `floormod(floordiv(source, lower_factor), extent) * scale`, deciding
the extent comparisons exactly (the analyzer's `CanProve` on integer
constants). -/
def convertIterSplitExpr (s : RewriterState) : Nat → IterSplitExpr → PrimExpr
  | 0, _ => .intImm 0
  | fuel+1, sp =>
    let source : PrimExpr :=
      match (markAt s sp.source).source with
      | .expr e => e
      | .sum t =>
        pAdd (t.args.foldl
          (fun acc a => pAdd acc (convertIterSplitExpr s fuel a)) (.intImm 0))
          (.intImm t.base)
    if sp.extent = markExtent s sp.source ∧ sp.lowerFactor = 1 then
      pMul source (.intImm sp.scale)
    else if markExtent s sp.source = sp.lowerFactor * sp.extent then
      pMul (pFloorDiv source (.intImm sp.lowerFactor)) (.intImm sp.scale)
    else
      pMul (pFloorMod (pFloorDiv source (.intImm sp.lowerFactor))
        (.intImm sp.extent)) (.intImm sp.scale)

/-- `IterMapToExprNormalizer::ConvertIterSumExpr`. -/
def convertIterSumExpr (s : RewriterState) (fuel : Nat) (t : IterSumExpr) :
    PrimExpr :=
  pAdd (t.args.foldl
    (fun acc a => pAdd acc (convertIterSplitExpr s fuel a)) (.intImm 0))
    (.intImm t.base)

/-- `NormalizeIterMapToExpr` over the arena: the mark DAG is acyclic and
its depth is bounded by the arena size. -/
def normalizeIterMapToExpr (s : RewriterState) (t : IterSumExpr) : PrimExpr :=
  convertIterSumExpr s (s.marks.length + 1) t

/-! #### The inverter (`InverseAffineIterMapTransformer`) -/

/-- A canonical node reachable during inversion (`IterMapExpr`): a sum or
a split.  The source keys the back-propagation map by object identity;
on the runs below all reachable nodes are structurally distinct, so
structural keys coincide with identity keys. -/
inductive NodeRef where
  | sum (t : IterSumExpr)
  | split (sp : IterSplitExpr)
deriving DecidableEq, Repr

/-- The visited set and post-order accumulator of
`ReverseTopologyOrder`. -/
structure TopoState where
  visited : List NodeRef
  order : List NodeRef
deriving Repr

/-- The depth-first visit of `ReverseTopologyOrder`: a sum's children are
its splits, a split's child is its source's source when that is a
canonical sum; nodes are appended post-order. -/
def topoVisit (s : RewriterState) : Nat → NodeRef → TopoState → TopoState
  | 0, _, st => st
  | fuel+1, n, st =>
    if n ∈ st.visited then st
    else
      let st1 := { st with visited := st.visited ++ [n] }
      let st2 :=
        match n with
        | .sum t => t.args.foldl (fun acc sp => topoVisit s fuel (.split sp) acc) st1
        | .split sp =>
          match (markAt s sp.source).source with
          | .sum t => topoVisit s fuel (.sum t) st1
          | .expr _ => st1
      { st2 with order := st2.order ++ [n] }

/-- `ReverseTopologyOrder` over the root sums (reversed post-order). -/
def reverseTopologyOrder (s : RewriterState) (fuel : Nat)
    (iterMap : List IterSumExpr) : List NodeRef :=
  (iterMap.foldl (fun st t => topoVisit s fuel (.sum t) st) ⟨[], []⟩).order.reverse

/-- One back-propagation visit.  For a sum with one argument the input
propagates directly; for several arguments each split receives
`floormod(floordiv(input, scale), extent)` (the fuse-pattern `ICHECK`s
of the source are assertions and hold on the runs below).  For a split
the input is scaled by the lower factor and pushed into the source sum,
or accumulated into the inverse map when the source is an input
iterator variable. -/
def invStep (s : RewriterState)
    (acc : List (NodeRef × PrimExpr) × List (Nat × PrimExpr)) (n : NodeRef) :
    List (NodeRef × PrimExpr) × List (Nat × PrimExpr) :=
  match n with
  | .sum t =>
    let bp := acc.1
    let input := pSub ((afind bp n).getD (.intImm 0)) (.intImm t.base)
    if t.args.length = 1 then
      let src := NodeRef.split (t.args.headD junkSplit)
      (aset bp src (pAdd ((afind bp src).getD (.intImm 0)) input), acc.2)
    else
      (t.args.reverse.foldl
        (fun bpa sp =>
          aset bpa (.split sp)
            (pAdd ((afind bpa (.split sp)).getD (.intImm 0))
              (pFloorMod (pFloorDiv input (.intImm sp.scale)) (.intImm sp.extent))))
        bp, acc.2)
  | .split sp =>
    let bp := acc.1
    let input := pMul ((afind bp n).getD (.intImm 0)) (.intImm sp.lowerFactor)
    match (markAt s sp.source).source with
    | .sum t => (aset bp (.sum t) (pAdd ((afind bp (.sum t)).getD (.intImm 0)) input), acc.2)
    | .expr e =>
      match e with
      | .var v =>
        match afind acc.2 v with
        | some cur => (bp, aset acc.2 v (pAdd cur input))
        | none => (bp, aset acc.2 v input)
      | _ => (bp, acc.2)

/-- Model of `InverseAffineIterMap`: initialise the accumulator to zero
on every reachable node, override the roots with the outputs, then run
the back propagation in reverse topological order and return the
per-variable inverse map. -/
def inverseAffineIterMap (s : RewriterState) (iterMap : List IterSumExpr)
    (outputs : List PrimExpr) : List (Nat × PrimExpr) :=
  let order := reverseTopologyOrder s (s.marks.length + iterMap.length + 8) iterMap
  let bp0 := order.foldl (fun m n => aset m n (.intImm 0)) []
  let bp1 := (iterMap.zip outputs).foldl (fun m p => aset m (.sum p.1) p.2) bp0
  (order.foldl (invStep s) (bp1, [])).2

/-! #### A concrete two-constraint scenario

Input fixture used to examine the in-place tightening of a
constraint-induced mark: `j ∈ [0, 5)`, `k ∈ [0, 2)` with the predicate
`(j*2 + k < 9) && (j*2 + k + 0 < 8)`.  Both conjuncts resolve to the
same flattened form; their iterator expressions have distinct node
counts (5 and 7), so the ascending-size processing order is unique. -/

/-- The iterator ranges of the two-constraint scenario. -/
def c9Iters : List (Nat × RangeI) := [(0, ⟨0, 5⟩), (1, ⟨0, 2⟩)]

/-- The index expression `j*2 + k` of the scenario. -/
def c9Index : PrimExpr := .add (.mul (.var 0) (.intImm 2)) (.var 1)

/-- The predicate `(j*2 + k < 9) && (j*2 + k + 0 < 8)` of the scenario. -/
def c9Pred : BoolExpr :=
  .band (.cmp .lt c9Index (.intImm 9))
    (.cmp .lt (.add c9Index (.intImm 0)) (.intImm 8))

/-- The scenario's constraints in the order `DetectIterMap` rewrites
them (split from the predicate, sized, sorted ascending). -/
def c9Sorted : List IterConstraint :=
  sortBySize ((matchBoundConstraints (c9Iters.map Prod.fst) c9Pred).map
    (fun c => { c with size := countNodes c.iter }))

/-! ### Arithmetic facts about floor division used by the split algebra -/

theorem canProveDivisible_iff {a b : Int} (_hb : b ≠ 0) :
    canProveDivisible a b = true ↔ b ∣ a := by
  unfold canProveDivisible
  rw [beq_iff_eq]
  exact ⟨Int.dvd_of_emod_eq_zero, Int.emod_eq_zero_of_dvd⟩

theorem ediv_ediv_of_pos (a : Int) {b c : Int} (hb : 0 < b) (hc : 0 < c) :
    (a / b) / c = a / (b * c) := by
  have hbc : 0 < b * c := mul_pos hb hc
  have h1 : b * (a / b) + a % b = a := Int.ediv_add_emod a b
  have h2 : c * ((a / b) / c) + (a / b) % c = a / b := Int.ediv_add_emod (a / b) c
  have hr1 : 0 ≤ a % b := Int.emod_nonneg a (ne_of_gt hb)
  have hr1' : a % b < b := Int.emod_lt_of_pos a hb
  have hr2 : 0 ≤ (a / b) % c := Int.emod_nonneg _ (ne_of_gt hc)
  have hr2' : (a / b) % c < c := Int.emod_lt_of_pos _ hc
  have key : (b * ((a / b) % c) + a % b) + (b * c) * ((a / b) / c) = a := by nlinarith
  have hlo : 0 ≤ b * ((a / b) % c) + a % b := by nlinarith
  have hhi : b * ((a / b) % c) + a % b < b * c := by nlinarith
  exact ((Int.ediv_emod_unique hbc).mpr ⟨key, hlo, hhi⟩).1.symm

/-- The floor-division identity behind the `scale = 1` case of
`SplitFloorDivConst`: dividing the slice value by a divisor of the extent
is the slice with lower factor multiplied and extent divided. -/
theorem emod_ediv_eq {y E rhs : Int} (hE : 0 < E) (hrhs : 0 < rhs)
    (hdvd : rhs ∣ E) : (y % E) / rhs = (y / rhs) % (E / rhs) := by
  obtain ⟨k, hk⟩ := hdvd
  have hEk : E / rhs = k := by
    rw [hk]; exact Int.mul_ediv_cancel_left k (ne_of_gt hrhs)
  have hkpos : 0 < k := by nlinarith
  have hsplit : y = y % E + rhs * (k * (y / E)) := by
    have := Int.ediv_add_emod y E
    rw [hk] at this ⊢
    linarith [this]
  have h1 : y / rhs = (y % E) / rhs + k * (y / E) := by
    conv_lhs => rw [hsplit]
    exact Int.add_mul_ediv_left (y % E) (k * (y / E)) (ne_of_gt hrhs)
  have hmlt : (y % E) / rhs < k := by
    rw [Int.ediv_lt_iff_lt_mul hrhs]
    calc y % E < E := Int.emod_lt_of_pos y hE
    _ = k * rhs := by rw [hk]; ring
  have hmnn : 0 ≤ (y % E) / rhs :=
    Int.ediv_nonneg (Int.emod_nonneg y (ne_of_gt hE)) (le_of_lt hrhs)
  rw [hEk, h1, Int.add_mul_emod_self_left, Int.emod_eq_of_lt hmnn hmlt]

/-! ### Claim C5: floor division of a `scale = 1` split -/

/-- Claim C5: for a split with scale 1 and a divisor `rhs ≥ 1` of the
extent, `SplitFloorDivConst` returns the split with lower factor `L * rhs`
and extent `E / rhs`, and the denoted value is preserved: for every
`s ≥ 0`, `floordiv(floormod(floordiv(s, L), E), rhs) =
floormod(floordiv(s, L * rhs), E / rhs)`. -/
theorem c5_split_floordiv (src : Nat) (L E rhs : Int)
    (hL : 1 ≤ L) (hE : 1 ≤ E) (hrhs : 1 ≤ rhs) (hdvd : rhs ∣ E) :
    splitFloorDivConst ⟨src, L, E, 1⟩ rhs =
      DivRes.upd ⟨src, L * rhs, Int.fdiv E rhs, 1⟩ ∧
    ∀ s : Int, 0 ≤ s →
      Int.fdiv (Int.fmod (Int.fdiv s L) E) rhs =
        Int.fmod (Int.fdiv s (L * rhs)) (Int.fdiv E rhs) := by
  have hL0 : (0:Int) < L := by linarith
  have hE0 : (0:Int) < E := by linarith
  have hr0 : (0:Int) < rhs := by linarith
  have hLr : (0:Int) < L * rhs := mul_pos hL0 hr0
  have hEr : Int.fdiv E rhs = E / rhs := Int.fdiv_eq_ediv E (le_of_lt hr0)
  have hk0 : 0 < E / rhs := by
    obtain ⟨k, hk⟩ := hdvd
    have : E / rhs = k := by rw [hk]; exact Int.mul_ediv_cancel_left k (ne_of_gt hr0)
    rw [this]; nlinarith
  constructor
  · by_cases h1 : rhs = 1
    · subst h1
      simp [splitFloorDivConst, Int.fdiv_one]
    · have hdiv : canProveDivisible E rhs = true :=
        (canProveDivisible_iff (ne_of_gt hr0)).mpr hdvd
      simp [splitFloorDivConst, splitFloorDivCore, h1, hdiv]
  · intro s _
    have h1 : Int.fdiv s L = s / L := Int.fdiv_eq_ediv s (le_of_lt hL0)
    have h2 : Int.fmod (s / L) E = (s / L) % E := Int.fmod_eq_emod _ (le_of_lt hE0)
    have h3 : Int.fdiv ((s / L) % E) rhs = ((s / L) % E) / rhs :=
      Int.fdiv_eq_ediv _ (le_of_lt hr0)
    have h4 : Int.fdiv s (L * rhs) = s / (L * rhs) := Int.fdiv_eq_ediv s (le_of_lt hLr)
    have h5 : Int.fmod (s / (L * rhs)) (E / rhs) = (s / (L * rhs)) % (E / rhs) :=
      Int.fmod_eq_emod _ (le_of_lt hk0)
    rw [h1, h2, h3, h4, hEr, h5, ← ediv_ediv_of_pos s hL0 hr0]
    exact emod_ediv_eq hE0 hr0 hdvd

/-- Witness for `c5_split_floordiv` at `L = 2`, `E = 6`, `rhs = 3`, `s = 13`. -/
theorem c5_split_floordiv_witness :
    ((1:Int) ≤ 2 ∧ (1:Int) ≤ 6 ∧ (1:Int) ≤ 3 ∧ (3:Int) ∣ 6) ∧
    splitFloorDivConst ⟨0, 2, 6, 1⟩ 3 = DivRes.upd ⟨0, 2 * 3, Int.fdiv 6 3, 1⟩ ∧
    Int.fdiv (Int.fmod (Int.fdiv 13 2) 6) 3 =
      Int.fmod (Int.fdiv 13 (2 * 3)) (Int.fdiv 6 3) :=
  ⟨by decide,
   (c5_split_floordiv 0 2 6 3 (by decide) (by decide) (by decide) (by decide)).1,
   (c5_split_floordiv 0 2 6 3 (by decide) (by decide) (by decide) (by decide)).2
     13 (by decide)⟩

/-! ### Claim C6: floor modulus of a split -/

/-- Counterexample to claim C6 as stated: for the split with scale 2,
extent 4 and `rhs = 4` none of the claim's three success cases applies
(`rhs ≠ 1`, `4` does not divide the scale `2`, and the scale is not 1), so
the claim predicts failure; the code instead succeeds through the
`rhs`-divisible-by-`scale` fall-through and returns the split with extent
`4 / 2 = 2` and unchanged scale. -/
theorem c6_split_floormod_counterexample :
    (4:Int) ≠ 1 ∧ ¬ ((4:Int) ∣ 2) ∧ (2:Int) ≠ 1 ∧
    splitFloorModConst ⟨0, 1, 4, 2⟩ 4 = ModRes.upd ⟨0, 1, 2, 2⟩ ∧
    splitFloorModConst ⟨0, 1, 4, 2⟩ 4 ≠ ModRes.fail := by
  refine ⟨by decide, ?_, by decide, by decide, by decide⟩
  decide

/-- Amended claim C6: the behaviour of `SplitFloorModConst` on a split
with positive extent and positive `rhs`, including the fall-through case
the original claim omitted: (1) `rhs = 1` gives 0; (2) a scale divisible
by `rhs` gives 0; (3) scale 1 with `rhs` dividing the extent gives the
split with extent `rhs`, preserving the denoted value
(`floormod(floormod(floordiv(s, L), E), rhs) = floormod(floordiv(s, L), rhs)`);
(4) scale `≠ 1` not divisible by `rhs` but with `scale ∣ rhs` and
`(rhs / scale) ∣ E` gives the split with extent `rhs / scale` and
unchanged lower factor and scale, again preserving the denoted value for
positive scales; (5) in all remaining cases the operation fails. -/
theorem c6_split_floormod (src : Nat) (L E scale rhs : Int)
    (hE : 1 ≤ E) (hrhs : 1 ≤ rhs) :
    (rhs = 1 → splitFloorModConst ⟨src, L, E, scale⟩ rhs = ModRes.zero) ∧
    (rhs ∣ scale → splitFloorModConst ⟨src, L, E, scale⟩ rhs = ModRes.zero) ∧
    (scale = 1 → rhs ≠ 1 → rhs ∣ E →
      splitFloorModConst ⟨src, L, E, scale⟩ rhs = ModRes.upd ⟨src, L, rhs, 1⟩ ∧
      ∀ s : Int, 0 ≤ s →
        Int.fmod (Int.fmod (Int.fdiv s L) E) rhs = Int.fmod (Int.fdiv s L) rhs) ∧
    (scale ≠ 1 → ¬ rhs ∣ scale → scale ∣ rhs → (Int.fdiv rhs scale) ∣ E →
      splitFloorModConst ⟨src, L, E, scale⟩ rhs =
        ModRes.upd ⟨src, L, Int.fdiv rhs scale, scale⟩ ∧
      (1 ≤ scale → ∀ s : Int,
        Int.fmod (Int.fmod (Int.fdiv s L) E * scale) rhs =
          Int.fmod (Int.fdiv s L) (Int.fdiv rhs scale) * scale)) ∧
    (scale = 1 → rhs ≠ 1 → ¬ rhs ∣ E →
      splitFloorModConst ⟨src, L, E, scale⟩ rhs = ModRes.fail) ∧
    (scale ≠ 1 → ¬ rhs ∣ scale → ¬ scale ∣ rhs →
      splitFloorModConst ⟨src, L, E, scale⟩ rhs = ModRes.fail) ∧
    (scale ≠ 1 → ¬ rhs ∣ scale → scale ∣ rhs → ¬ (Int.fdiv rhs scale) ∣ E →
      splitFloorModConst ⟨src, L, E, scale⟩ rhs = ModRes.fail) := by
  have hr0 : (0:Int) < rhs := by linarith
  have hE0 : (0:Int) < E := by linarith
  refine ⟨?_, ?_, ?_, ?_, ?_, ?_, ?_⟩
  · intro h; simp [splitFloorModConst, h]
  · intro h
    by_cases h1 : rhs = 1
    · simp [splitFloorModConst, h1]
    · have hsc : scale ≠ 1 := by
        rintro rfl
        exact h1 (Int.eq_one_of_dvd_one (le_of_lt hr0) h)
      have hd : canProveDivisible scale rhs = true :=
        (canProveDivisible_iff (ne_of_gt hr0)).mpr h
      simp [splitFloorModConst, h1, hsc, hd]
  · intro hsc h1 hdvd
    constructor
    · have hd : canProveDivisible E rhs = true :=
        (canProveDivisible_iff (ne_of_gt hr0)).mpr hdvd
      simp [splitFloorModConst, splitFloorModCore, hsc, h1, hd]
    · intro s _
      have h2 : Int.fmod (Int.fdiv s L) E = (Int.fdiv s L) % E :=
        Int.fmod_eq_emod _ (le_of_lt hE0)
      have h3 : Int.fmod ((Int.fdiv s L) % E) rhs = ((Int.fdiv s L) % E) % rhs :=
        Int.fmod_eq_emod _ (le_of_lt hr0)
      have h4 : Int.fmod (Int.fdiv s L) rhs = (Int.fdiv s L) % rhs :=
        Int.fmod_eq_emod _ (le_of_lt hr0)
      rw [h2, h3, h4]
      exact Int.emod_emod_of_dvd _ hdvd
  · intro hsc hnd hds hdE
    have hs0 : scale ≠ 0 := by
      rintro rfl
      exact hnd (dvd_zero rhs)
    obtain ⟨c2, hc2⟩ := hds
    have hc2v : Int.fdiv rhs scale = c2 := by
      have : rhs = scale * c2 := hc2
      rw [this, Int.mul_fdiv_cancel_left c2 hs0]
    constructor
    · have hdcore : canProveDivisible rhs scale = true := by
        rw [canProveDivisible_iff hs0]; exact ⟨c2, hc2⟩
      have hndB : canProveDivisible scale rhs = false := by
        rcases h : canProveDivisible scale rhs with _ | _
        · rfl
        · exact absurd ((canProveDivisible_iff (ne_of_gt hr0)).mp h) hnd
      have h1 : rhs ≠ 1 := by
        rintro rfl
        exact hnd (one_dvd scale)
      have hdEb : canProveDivisible E (Int.fdiv rhs scale) = true := by
        have hc2nz : c2 ≠ 0 := by
          rintro rfl
          rw [mul_zero] at hc2
          exact absurd hc2 (ne_of_gt hr0)
        rw [hc2v, canProveDivisible_iff hc2nz]
        rw [hc2v] at hdE; exact hdE
      simp [splitFloorModConst, splitFloorModCore, hsc, h1, hndB, hdcore, hdEb]
    · intro hs1 s
      have hsp : (0:Int) < scale := by linarith
      have hc2pos : 0 < c2 := by nlinarith [hc2]
      rw [hc2v] at hdE ⊢
      set y := Int.fdiv s L with hy
      have hEc : Int.fmod y E = y % E := Int.fmod_eq_emod _ (le_of_lt hE0)
      have hcY : Int.fmod y c2 = y % c2 := Int.fmod_eq_emod _ (le_of_lt hc2pos)
      have hout : Int.fmod (y % E * scale) rhs = (y % E * scale) % rhs :=
        Int.fmod_eq_emod _ (le_of_lt hr0)
      rw [hEc, hout, hcY, hc2]
      rw [mul_comm (y % E) scale, mul_comm (y % c2) scale]
      rw [Int.mul_emod_mul_of_pos _ _ hsp]
      rw [Int.emod_emod_of_dvd _ hdE]
  · intro hsc h1 hnd
    have hd : canProveDivisible E rhs = false := by
      rcases h : canProveDivisible E rhs with _ | _
      · rfl
      · exact absurd ((canProveDivisible_iff (ne_of_gt hr0)).mp h) hnd
    simp [splitFloorModConst, splitFloorModCore, hsc, h1, hd]
  · intro hsc hnd hnds
    have hs0 : scale ≠ 0 := by
      rintro rfl
      exact hnd (dvd_zero rhs)
    have h1 : rhs ≠ 1 := by
      rintro rfl
      exact hnd (one_dvd scale)
    have hA : canProveDivisible scale rhs = false := by
      rcases h : canProveDivisible scale rhs with _ | _
      · rfl
      · exact absurd ((canProveDivisible_iff (ne_of_gt hr0)).mp h) hnd
    have hB : canProveDivisible rhs scale = false := by
      rcases h : canProveDivisible rhs scale with _ | _
      · rfl
      · exact absurd ((canProveDivisible_iff hs0).mp h) hnds
    simp [splitFloorModConst, hsc, h1, hA, hB]
  · intro hsc hnd hds hndE
    have hs0 : scale ≠ 0 := by
      rintro rfl
      exact hnd (dvd_zero rhs)
    have h1 : rhs ≠ 1 := by
      rintro rfl
      exact hnd (one_dvd scale)
    have hA : canProveDivisible scale rhs = false := by
      rcases h : canProveDivisible scale rhs with _ | _
      · rfl
      · exact absurd ((canProveDivisible_iff (ne_of_gt hr0)).mp h) hnd
    have hB : canProveDivisible rhs scale = true := by
      rw [canProveDivisible_iff hs0]; exact hds
    have hc2nz : Int.fdiv rhs scale ≠ 0 := by
      obtain ⟨c2, hc2⟩ := hds
      have hv : Int.fdiv rhs scale = c2 := by
        rw [hc2, Int.mul_fdiv_cancel_left c2 hs0]
      rw [hv]
      rintro rfl
      rw [mul_zero] at hc2
      exact absurd hc2 (ne_of_gt hr0)
    have hC : canProveDivisible E (Int.fdiv rhs scale) = false := by
      rcases h : canProveDivisible E (Int.fdiv rhs scale) with _ | _
      · rfl
      · exact absurd ((canProveDivisible_iff hc2nz).mp h) hndE
    simp [splitFloorModConst, splitFloorModCore, hsc, h1, hA, hB, hC]

/-- Witness for `c6_split_floormod` at `L = 1`, `E = 4`, `scale = 2`,
`rhs = 4`, exercising the fall-through case at `s = 7`. -/
theorem c6_split_floormod_witness :
    ((1:Int) ≤ 4 ∧ (1:Int) ≤ 4) ∧
    splitFloorModConst ⟨0, 1, 4, 2⟩ 4 = ModRes.upd ⟨0, 1, 2, 2⟩ ∧
    Int.fmod (Int.fmod (Int.fdiv 7 1) 4 * 2) 4 =
      Int.fmod (Int.fdiv 7 1) (Int.fdiv 4 2) * 2 := by
  have h := c6_split_floormod 0 1 4 2 4 (by decide) (by decide)
  have h4 := h.2.2.2.1 (by decide) (by decide) (by decide) (by decide)
  exact ⟨by decide, h4.1, h4.2 (by decide) 7⟩

/-! ### Facts about the `TryNormalizeSplits` loop -/

theorem selectedSplits_cons (s : IterSplitExpr) (u : Bool)
    (r : List (IterSplitExpr × Bool)) :
    selectedSplits ((s, u) :: r) =
      if u then s :: selectedSplits r else selectedSplits r := by
  cases u <;> simp [selectedSplits, List.filter_cons]

theorem unusedCount_cons (s : IterSplitExpr) (u : Bool)
    (r : List (IterSplitExpr × Bool)) :
    unusedCount ((s, u) :: r) =
      if u then unusedCount r else unusedCount r + 1 := by
  cases u <;> simp [unusedCount, List.filter_cons]

theorem selectedSplits_all_used :
    ∀ (items : List (IterSplitExpr × Bool)), unusedCount items = 0 →
      selectedSplits items = items.map Prod.fst
  | [], _ => rfl
  | (s, u) :: r, h => by
    rw [unusedCount_cons] at h
    cases u with
    | true =>
      simp only [if_true] at h
      simp [selectedSplits_cons, selectedSplits_all_used r h]
    | false => simp at h

theorem pickEq_spec :
    ∀ (items : List (IterSplitExpr × Bool)) (e : Int)
      (items2 : List (IterSplitExpr × Bool)) (sp : IterSplitExpr),
      pickEq items e = some (items2, sp) →
      items2.map Prod.fst = items.map Prod.fst ∧
      sp.lowerFactor = e ∧
      (sp, false) ∈ items ∧
      (selectedSplits items2).Perm (sp :: selectedSplits items) ∧
      unusedCount items = unusedCount items2 + 1
  | [], _, _, _, h => by simp [pickEq] at h
  | (s, u) :: r, e, items2, sp, h => by
    rw [pickEq] at h
    by_cases hc : (!u && canProveEqual s.lowerFactor e) = true
    · rw [if_pos hc] at h
      obtain ⟨hu, he⟩ := Bool.and_eq_true_iff.mp hc
      have hu2 : u = false := by
        cases u
        · rfl
        · simp at hu
      have heq : s.lowerFactor = e := by simpa [canProveEqual] using he
      simp only [Option.some.injEq, Prod.mk.injEq] at h
      obtain ⟨h1, h2⟩ := h
      subst h1
      subst h2
      subst hu2
      refine ⟨rfl, heq, List.mem_cons_self _ _, ?_, ?_⟩
      · rw [selectedSplits_cons, selectedSplits_cons]
        simp
      · rw [unusedCount_cons, unusedCount_cons]
        simp
    · rw [if_neg hc] at h
      cases hrec : pickEq r e with
      | none => rw [hrec] at h; simp at h
      | some p =>
        obtain ⟨r2, sp2⟩ := p
        rw [hrec] at h
        simp only [Option.some.injEq, Prod.mk.injEq] at h
        obtain ⟨h1, h2⟩ := h
        obtain ⟨hm, hlf, hmem, hperm, hcnt⟩ := pickEq_spec r e r2 sp2 hrec
        subst h1
        subst h2
        refine ⟨by simpa using hm, hlf, List.mem_cons_of_mem _ hmem, ?_, ?_⟩
        · rw [selectedSplits_cons, selectedSplits_cons]
          cases u with
          | true =>
            simp only [if_true]
            exact (hperm.cons s).trans (List.Perm.swap sp2 s _)
          | false => simpa using hperm
        · rw [unusedCount_cons, unusedCount_cons]
          cases u <;> simp [hcnt]

theorem markFirstUnused_spec :
    ∀ (items : List (IterSplitExpr × Bool)) (sp : IterSplitExpr)
      (items2 : List (IterSplitExpr × Bool)),
      markFirstUnused items sp = some items2 →
      items2.map Prod.fst = items.map Prod.fst ∧
      (sp, false) ∈ items ∧
      (selectedSplits items2).Perm (sp :: selectedSplits items) ∧
      unusedCount items = unusedCount items2 + 1
  | [], _, _, h => by simp [markFirstUnused] at h
  | (s, u) :: r, sp, items2, h => by
    rw [markFirstUnused] at h
    by_cases hc : (!u && s == sp) = true
    · rw [if_pos hc] at h
      obtain ⟨hu, he⟩ := Bool.and_eq_true_iff.mp hc
      have hu2 : u = false := by
        cases u
        · rfl
        · simp at hu
      have heq : s = sp := by simpa using he
      simp only [Option.some.injEq] at h
      subst heq
      subst hu2
      subst h
      refine ⟨rfl, List.mem_cons_self _ _, ?_, ?_⟩
      · rw [selectedSplits_cons, selectedSplits_cons]
        simp
      · rw [unusedCount_cons, unusedCount_cons]
        simp
    · rw [if_neg hc] at h
      cases hrec : markFirstUnused r sp with
      | none => rw [hrec] at h; simp at h
      | some r2 =>
        rw [hrec] at h
        simp only [Option.some.injEq] at h
        subst h
        obtain ⟨hm, hmem, hperm, hcnt⟩ := markFirstUnused_spec r sp r2 hrec
        refine ⟨by simpa using hm, List.mem_cons_of_mem _ hmem, ?_, ?_⟩
        · rw [selectedSplits_cons, selectedSplits_cons]
          cases u with
          | true =>
            simp only [if_true]
            exact (hperm.cons s).trans (List.Perm.swap sp s _)
          | false => simpa using hperm
        · rw [unusedCount_cons, unusedCount_cons]
          cases u <;> simp [hcnt]

theorem skipSelect_sound :
    ∀ (items : List (IterSplitExpr × Bool)) (e : Int)
      (acc : Option IterSplitExpr) (sp : IterSplitExpr),
      skipSelect items e acc = some (some sp) →
      acc = some sp ∨
      ((sp, false) ∈ items ∧ canProveDivisible sp.lowerFactor e = true)
  | [], _, _, _, h => by
    left
    simpa [skipSelect] using h
  | (s, u) :: r, e, acc, sp, h => by
    simp only [skipSelect] at h
    by_cases hu : u
    · rw [if_pos hu] at h
      rcases skipSelect_sound r e acc sp h with h2 | h2
      · exact Or.inl h2
      · exact Or.inr ⟨List.mem_cons_of_mem _ h2.1, h2.2⟩
    · rw [if_neg hu] at h
      have hu2 : u = false := by simpa using hu
      by_cases hd : canProveDivisible s.lowerFactor e = true
      · rw [if_neg (by simp [hd])] at h
        rcases acc with _ | res
        · dsimp only at h
          rcases skipSelect_sound r e (some s) sp h with h2 | h2
          · have h3 : s = sp := by simpa using h2
            subst h3
            exact Or.inr ⟨by rw [hu2]; exact List.mem_cons_self _ _, hd⟩
          · exact Or.inr ⟨List.mem_cons_of_mem _ h2.1, h2.2⟩
        · dsimp only at h
          by_cases hcd : canProveDivisible res.lowerFactor s.lowerFactor = true
          · rw [if_pos hcd] at h
            rcases skipSelect_sound r e (some s) sp h with h2 | h2
            · have h3 : s = sp := by simpa using h2
              subst h3
              exact Or.inr ⟨by rw [hu2]; exact List.mem_cons_self _ _, hd⟩
            · exact Or.inr ⟨List.mem_cons_of_mem _ h2.1, h2.2⟩
          · rw [if_neg hcd] at h
            rcases skipSelect_sound r e (some res) sp h with h2 | h2
            · exact Or.inl h2
            · exact Or.inr ⟨List.mem_cons_of_mem _ h2.1, h2.2⟩
      · have hd2 : canProveDivisible s.lowerFactor e = false := by
          simpa using hd
        rw [if_pos (by simp [hd2])] at h
        simp at h

theorem pickSkip_spec (items : List (IterSplitExpr × Bool)) (e : Int)
    (items2 : List (IterSplitExpr × Bool)) (sp : IterSplitExpr)
    (h : pickSkip items e = some (items2, sp)) :
    items2.map Prod.fst = items.map Prod.fst ∧
    canProveDivisible sp.lowerFactor e = true ∧
    (sp, false) ∈ items ∧
    (selectedSplits items2).Perm (sp :: selectedSplits items) ∧
    unusedCount items = unusedCount items2 + 1 := by
  unfold pickSkip at h
  split at h
  · simp at h
  · simp at h
  · rename_i sp2 hss
    split at h
    · rename_i m2 hmk
      simp only [Option.some.injEq, Prod.mk.injEq] at h
      obtain ⟨h1, h2⟩ := h
      subst h1
      subst h2
      rcases skipSelect_sound items e none sp2 hss with hbad | hgood
      · simp at hbad
      · obtain ⟨hm, hmem, hperm, hcnt⟩ := markFirstUnused_spec items sp2 m2 hmk
        exact ⟨hm, hgood.2, hmem, hperm, hcnt⟩
    · simp at h

theorem isChain_append (s : IterSplitExpr) :
    ∀ (l : List IterSplitExpr) (c c2 : Int), IsChain c l c2 →
      s.lowerFactor = c2 → IsChain c (l ++ [s]) (c2 * s.extent)
  | [], c, c2, h, hl => by
    unfold IsChain at h
    subst h
    exact ⟨hl, rfl⟩
  | x :: r, c, c2, h, hl => by
    obtain ⟨h1, h2⟩ := h
    exact ⟨h1, isChain_append s r (c * x.extent) c2 h2 hl⟩

theorem isChain_prod :
    ∀ (l : List IterSplitExpr) (c c2 : Int), IsChain c l c2 →
      c2 = c * (l.map IterSplitExpr.extent).prod
  | [], c, c2, h => by
    unfold IsChain at h
    simpa using h
  | x :: r, c, c2, h => by
    obtain ⟨_, h2⟩ := h
    have hr := isChain_prod r (c * x.extent) c2 h2
    rw [hr, List.map_cons, List.prod_cons]
    ring

theorem splitDisjoint_symm {a b : IterSplitExpr} (h : SplitDisjoint a b) :
    SplitDisjoint b a := Or.symm h

theorem tnsLoop_sound (bij : Bool) :
    ∀ (fuel : Nat) (items : List (IterSplitExpr × Bool)) (expected : Int)
      (acc res : List IterSplitExpr) (expF : Int),
      tnsLoop bij fuel items expected acc = some (res, expF) →
      (∀ s ∈ items.map Prod.fst, 1 ≤ s.lowerFactor ∧ 1 ≤ s.extent) →
      1 ≤ expected →
      (∀ a ∈ acc, a.lowerFactor * a.extent ≤ expected) →
      acc.Pairwise SplitDisjoint →
      acc.Perm (selectedSplits items) →
      unusedCount items = fuel →
      res.Pairwise SplitDisjoint ∧ res.Perm (items.map Prod.fst) ∧
        (bij = true → IsChain 1 acc expected → IsChain 1 res expF)
  | 0, items, expected, acc, res, expF, h, _hwf, _hexp, _hbnd, hpw, hperm, hcnt => by
    rw [tnsLoop] at h
    simp only [Option.some.injEq, Prod.mk.injEq] at h
    obtain ⟨h1, h2⟩ := h
    subst h1
    subst h2
    refine ⟨hpw, ?_, fun _ hc => hc⟩
    rw [← selectedSplits_all_used items hcnt]
    exact hperm
  | fuel+1, items, expected, acc, res, expF, h, hwf, hexp, hbnd, hpw, hperm, hcnt => by
    rw [tnsLoop] at h
    have main :
        ∀ (items2 : List (IterSplitExpr × Bool)) (sp : IterSplitExpr),
          items2.map Prod.fst = items.map Prod.fst →
          expected ≤ sp.lowerFactor →
          (sp, false) ∈ items →
          (selectedSplits items2).Perm (sp :: selectedSplits items) →
          unusedCount items = unusedCount items2 + 1 →
          tnsLoop bij fuel items2 (sp.lowerFactor * sp.extent) (acc ++ [sp]) =
            some (res, expF) →
          (bij = true → sp.lowerFactor = expected) →
          res.Pairwise SplitDisjoint ∧ res.Perm (items.map Prod.fst) ∧
            (bij = true → IsChain 1 acc expected → IsChain 1 res expF) := by
      intro items2 sp hmapeq hle hmem hselperm hcnt2 hrec hlfbij
      have hspmem : sp ∈ items.map Prod.fst :=
        List.mem_map.mpr ⟨(sp, false), hmem, rfl⟩
      obtain ⟨hL1, hE1⟩ := hwf sp hspmem
      have hL0 : (0:Int) ≤ sp.lowerFactor := by linarith
      have hLE : sp.lowerFactor ≤ sp.lowerFactor * sp.extent :=
        le_mul_of_one_le_right hL0 hE1
      have hres := tnsLoop_sound bij fuel items2 (sp.lowerFactor * sp.extent)
        (acc ++ [sp]) res expF hrec
        (by rw [hmapeq]; exact hwf)
        (by nlinarith)
        (by
          intro a ha
          rcases List.mem_append.mp ha with ha2 | ha2
          · have := hbnd a ha2
            linarith
          · have ha3 : a = sp := by simpa using ha2
            subst ha3
            exact le_refl _)
        (by
          rw [List.pairwise_append]
          refine ⟨hpw, by simp, ?_⟩
          intro a ha b hb
          have hb2 : b = sp := by simpa using hb
          subst hb2
          left
          have := hbnd a ha
          linarith)
        (by
          have hps : (acc ++ [sp]).Perm (sp :: acc) := List.perm_append_singleton ..
          exact (hps.trans (hperm.cons sp)).trans hselperm.symm)
        (by omega)
      refine ⟨hres.1, by rw [← hmapeq]; exact hres.2.1, ?_⟩
      intro hbij hchain
      refine hres.2.2 hbij ?_
      have hch := isChain_append sp acc 1 expected hchain (hlfbij hbij)
      rw [hlfbij hbij]
      exact hch
    split at h
    · rename_i items2 sp hpe
      obtain ⟨hmapeq, hlf, hmem, hselperm, hcnt2⟩ :=
        pickEq_spec items expected items2 sp hpe
      exact main items2 sp hmapeq (le_of_eq hlf.symm) hmem hselperm hcnt2 h
        (fun _ => hlf)
    · rename_i hpe
      split at h
      · simp at h
      · rename_i hbij
        have hbij2 : bij = false := by simpa using hbij
        split at h
        · rename_i items2 sp hps
          obtain ⟨hmapeq, hdvd, hmem, hselperm, hcnt2⟩ :=
            pickSkip_spec items expected items2 sp hps
          have hspmem : sp ∈ items.map Prod.fst :=
            List.mem_map.mpr ⟨(sp, false), hmem, rfl⟩
          have hle : expected ≤ sp.lowerFactor := by
            have hdv : expected ∣ sp.lowerFactor :=
              (canProveDivisible_iff (by
                intro h0
                rw [h0] at hexp
                norm_num at hexp)).mp hdvd
            have hL1 := (hwf sp hspmem).1
            exact Int.le_of_dvd (by linarith) hdv
          exact main items2 sp hmapeq hle hmem hselperm hcnt2 h
            (fun hb => by rw [hb] at hbij2; cases hbij2)
        · simp at h

theorem map_fst_initItems (l : List IterSplitExpr) :
    ((l.map (fun s => (s, false))).map Prod.fst) = l := by
  induction l with
  | nil => rfl
  | cons x r ih => simp only [List.map_cons, ih]

theorem selectedSplits_initItems (l : List IterSplitExpr) :
    selectedSplits (l.map (fun s => (s, false))) = [] := by
  induction l with
  | nil => rfl
  | cons x r ih => rw [List.map_cons, selectedSplits_cons]; simpa using ih

theorem unusedCount_initItems (l : List IterSplitExpr) :
    unusedCount (l.map (fun s => (s, false))) = l.length := by
  induction l with
  | nil => rfl
  | cons x r ih => rw [List.map_cons, unusedCount_cons]; simpa using ih

theorem tryNormalizeSplits_inv (markExtent : Int)
    (splits : List IterSplitExpr) (bij : Bool) (r : List IterSplitExpr)
    (h : tryNormalizeSplits markExtent splits bij = some r)
    (hwf : ∀ s ∈ splits, 1 ≤ s.lowerFactor ∧ 1 ≤ s.extent) :
    splits.Pairwise SplitDisjoint ∧
    (bij = true → ∃ l, l.Perm splits ∧ IsChain 1 l markExtent ∧
      (l.map IterSplitExpr.extent).prod = markExtent) := by
  unfold tryNormalizeSplits at h
  split at h
  · simp at h
  · rename_i p iters expF htl
    have hres := tnsLoop_sound bij splits.length
      (splits.map fun s => (s, false)) 1 [] iters expF htl
      (by rw [map_fst_initItems]; exact hwf)
      (le_refl 1)
      (by simp)
      (by simp)
      (by rw [selectedSplits_initItems])
      (unusedCount_initItems splits)
    have hperm : iters.Perm splits := by
      have := hres.2.1
      rwa [map_fst_initItems] at this
    split at h
    · rename_i hcond
      constructor
      · exact (List.Perm.pairwise_iff (fun hab => splitDisjoint_symm hab) hperm).mp
          hres.1
      · intro hbij
        subst hbij
        have hceq : canProveEqual expF markExtent = true := by
          simpa using hcond
        have hexpF : expF = markExtent := by
          simpa [canProveEqual] using hceq
        have hchain : IsChain 1 iters expF := hres.2.2 rfl (by unfold IsChain; rfl)
        refine ⟨iters, hperm, by rw [← hexpF]; exact hchain, ?_⟩
        have hpr := isChain_prod iters 1 expF hchain
        rw [hexpF] at hpr
        linarith [hpr]
    · simp at h

/-! ### Facts about the collector -/

theorem afind_aset {κ β : Type} [DecidableEq κ] :
    ∀ (l : List (κ × β)) (k k2 : κ) (v : β),
      afind (aset l k v) k2 = if k2 = k then some v else afind l k2
  | [], k, k2, v => by
    simp only [aset, afind]
    by_cases h : k = k2
    · rw [if_pos h, if_pos h.symm]
    · rw [if_neg h, if_neg (fun hh => h hh.symm)]
  | (k0, w) :: r, k, k2, v => by
    simp only [aset]
    by_cases h0 : k0 = k
    · subst h0
      rw [if_pos rfl]
      simp only [afind]
      by_cases h : k0 = k2
      · rw [if_pos h, if_pos h.symm]
      · rw [if_neg h, if_neg (fun hh => h hh.symm), if_neg h]
    · rw [if_neg h0]
      simp only [afind]
      by_cases h2 : k0 = k2
      · have h3 : ¬ k2 = k := fun hh => h0 (h2.trans hh)
        rw [if_pos h2, if_neg h3, if_pos h2]
      · rw [if_neg h2, afind_aset r k k2 v]
        by_cases h3 : k2 = k
        · rw [if_pos h3, if_pos h3]
        · rw [if_neg h3, if_neg h3, if_neg h2]

theorem splitsOf_pushSplit (cr : CollectResult) (m : Nat)
    (sp : IterSplitExpr) (k : Nat) :
    splitsOf (pushSplit cr m sp) k =
      if k = m then splitsOf cr m ++ [sp] else splitsOf cr k := by
  by_cases h : k = m
  · simp [splitsOf, pushSplit, afind_aset, h]
  · simp [splitsOf, pushSplit, afind_aset, h]

theorem collectFold_inv (s : RewriterState) (fuel : Nat)
    (hci : ∀ (m : Nat) (cr : CollectResult),
      (∀ x ∈ cr.visited, x ∈ (collectInternal s fuel m cr).visited) ∧
      (∀ k, splitsOf cr k ≠ [] → splitsOf (collectInternal s fuel m cr) k ≠ []) ∧
      (∀ x ∈ (collectInternal s fuel m cr).visited,
        x ∈ cr.visited ∨ x = m ∨ splitsOf (collectInternal s fuel m cr) x ≠ [])) :
    ∀ (args : List IterSplitExpr) (cr0 : CollectResult),
      (∀ x ∈ cr0.visited, x ∈ (args.foldl (collectStep s fuel) cr0).visited) ∧
      (∀ k, splitsOf cr0 k ≠ [] →
        splitsOf (args.foldl (collectStep s fuel) cr0) k ≠ []) ∧
      (∀ x ∈ (args.foldl (collectStep s fuel) cr0).visited,
        x ∈ cr0.visited ∨ splitsOf (args.foldl (collectStep s fuel) cr0) x ≠ []) := by
  intro args
  induction args with
  | nil =>
    intro cr0
    exact ⟨fun x hx => hx, fun k hk => hk, fun x hx => Or.inl hx⟩
  | cons sp rest ihr =>
    intro cr0
    simp only [List.foldl_cons]
    have hstep : collectStep s fuel cr0 sp =
        pushSplit (collectInternal s fuel sp.source cr0) sp.source sp := rfl
    rw [hstep]
    have h1 := hci sp.source cr0
    have hvis2 : (pushSplit (collectInternal s fuel sp.source cr0) sp.source sp).visited =
        (collectInternal s fuel sp.source cr0).visited := rfl
    have hsp2 := splitsOf_pushSplit (collectInternal s fuel sp.source cr0) sp.source sp
    have hrest := ihr (pushSplit (collectInternal s fuel sp.source cr0) sp.source sp)
    refine ⟨?_, ?_, ?_⟩
    · intro x hx
      apply hrest.1
      rw [hvis2]
      exact h1.1 x hx
    · intro k hk
      apply hrest.2.1
      rw [hsp2]
      by_cases hkm : k = sp.source
      · simp [hkm]
      · rw [if_neg hkm]
        exact h1.2.1 k hk
    · intro x hx
      rcases hrest.2.2 x hx with h2 | h2
      · rw [hvis2] at h2
        rcases h1.2.2 x h2 with h3 | h3 | h3
        · exact Or.inl h3
        · refine Or.inr (hrest.2.1 x ?_)
          rw [hsp2, if_pos h3]
          simp
        · refine Or.inr (hrest.2.1 x ?_)
          rw [hsp2]
          by_cases hkm : x = sp.source
          · simp [hkm]
          · rw [if_neg hkm]
            exact h3
      · exact Or.inr h2

theorem collectInternal_inv (s : RewriterState) :
    ∀ (fuel : Nat) (m : Nat) (cr : CollectResult),
      (∀ x ∈ cr.visited, x ∈ (collectInternal s fuel m cr).visited) ∧
      (∀ k, splitsOf cr k ≠ [] → splitsOf (collectInternal s fuel m cr) k ≠ []) ∧
      (∀ x ∈ (collectInternal s fuel m cr).visited,
        x ∈ cr.visited ∨ x = m ∨ splitsOf (collectInternal s fuel m cr) x ≠ []) := by
  intro fuel
  induction fuel with
  | zero =>
    intro m cr
    exact ⟨fun x hx => hx, fun k hk => hk, fun x hx => Or.inl hx⟩
  | succ fuel ih =>
    intro m cr
    by_cases hv : m ∈ cr.visited
    · have hc : collectInternal s (fuel+1) m cr = cr := by
        rw [collectInternal, if_pos hv]
      rw [hc]
      exact ⟨fun x hx => hx, fun k hk => hk, fun x hx => Or.inl hx⟩
    · cases hsrc : (markAt s m).source with
      | expr e =>
        have hc : collectInternal s (fuel+1) m cr =
            { cr with visited := cr.visited ++ [m] } := by
          rw [collectInternal, if_neg hv, hsrc]
        rw [hc]
        refine ⟨fun x hx => List.mem_append.mpr (Or.inl hx), fun k hk => hk, ?_⟩
        intro x hx
        rcases List.mem_append.mp hx with h1 | h1
        · exact Or.inl h1
        · exact Or.inr (Or.inl (by simpa using h1))
      | sum t =>
        have hc : collectInternal s (fuel+1) m cr =
            t.args.foldl (collectStep s fuel)
              { cr with visited := cr.visited ++ [m] } := by
          rw [collectInternal, if_neg hv, hsrc]
          rfl
        rw [hc]
        have hstep := collectFold_inv s fuel ih t.args
          { cr with visited := cr.visited ++ [m] }
        refine ⟨?_, ?_, ?_⟩
        · intro x hx
          exact hstep.1 x (List.mem_append.mpr (Or.inl hx))
        · intro k hk
          exact hstep.2.1 k hk
        · intro x hx
          rcases hstep.2.2 x hx with h1 | h1
          · rcases List.mem_append.mp h1 with h2 | h2
            · exact Or.inl h2
            · exact Or.inr (Or.inl (by simpa using h2))
          · exact Or.inr (Or.inr h1)

theorem collect_visited_ne (s : RewriterState) (bindings : List IterSumExpr) :
    ∀ x ∈ (collect s bindings).visited, splitsOf (collect s bindings) x ≠ [] := by
  have hgen : ∀ (bs : List IterSumExpr) (cr0 : CollectResult),
      (∀ x ∈ cr0.visited, splitsOf cr0 x ≠ []) →
      ∀ x ∈ (bs.foldl
        (fun cr sum => sum.args.foldl (collectStep s s.marks.length) cr) cr0).visited,
        splitsOf (bs.foldl
          (fun cr sum => sum.args.foldl (collectStep s s.marks.length) cr) cr0) x ≠ [] := by
    intro bs
    induction bs with
    | nil => intro cr0 h; exact h
    | cons b rest ihb =>
      intro cr0 h
      simp only [List.foldl_cons]
      apply ihb
      have hf := collectFold_inv s s.marks.length
        (collectInternal_inv s s.marks.length) b.args cr0
      intro x hx
      rcases hf.2.2 x hx with h1 | h1
      · exact hf.2.1 x (h x h1)
      · exact h1
  intro x hx
  exact hgen bindings ⟨[], []⟩ (by intro y hy; cases hy) x hx

/-! ### From a successful detection to the mapping check -/

theorem detect_checkMapping (indices : List PrimExpr)
    (iters : List (Nat × RangeI)) (pred : BoolExpr) (bij : Bool)
    (s : RewriterState) (res : List IterSumExpr)
    (h : detectIterMapFull indices iters pred bij = (s, res)) (hne : res ≠ []) :
    checkMapping s res bij = true := by
  simp only [detectIterMapFull] at h
  split at h
  · simp only [Prod.mk.injEq] at h
    exact absurd h.2.symm hne
  · split at h
    · simp only [Prod.mk.injEq] at h
      exact absurd h.2.symm hne
    · split at h
      · simp only [Prod.mk.injEq] at h
        exact absurd h.2.symm hne
      · split at h
        · simp only [Prod.mk.injEq] at h
          exact absurd h.2.symm hne
        · split at h
          · simp only [Prod.mk.injEq] at h
            exact absurd h.2.symm hne
          · rename_i hcm
            simp only [Prod.mk.injEq] at h
            obtain ⟨h1, h2⟩ := h
            subst h1
            subst h2
            simpa using hcm

/-! ### Claim C3: disjointness of the splits of every reachable mark -/

/-- Claim C3: whenever `DetectIterMap` succeeds (returns a non-empty
list), every `IterMark` reachable from the returned canonical sums has
pairwise disjoint referencing splits: for any two distinct splits
`(L1, E1)` and `(L2, E2)` of the mark, `L1 * E1 ≤ L2` or `L2 * E2 ≤ L1`
(given the invariant that lower factors and extents are at least 1). -/
theorem c3_splits_disjoint (indices : List PrimExpr)
    (iters : List (Nat × RangeI)) (pred : BoolExpr) (bij : Bool)
    (s : RewriterState) (res : List IterSumExpr)
    (hdet : detectIterMapFull indices iters pred bij = (s, res))
    (hne : res ≠ [])
    (hwf : ∀ m ∈ (collect s res).visited, ∀ x ∈ splitsOf (collect s res) m,
      1 ≤ x.lowerFactor ∧ 1 ≤ x.extent) :
    ∀ m ∈ (collect s res).visited,
      (splitsOf (collect s res) m).Pairwise SplitDisjoint := by
  have hcm := detect_checkMapping indices iters pred bij s res hdet hne
  simp only [checkMapping, Bool.and_eq_true_iff] at hcm
  intro m hm
  have h2 := List.all_eq_true.mp hcm.1 m hm
  obtain ⟨r, hr⟩ := Option.isSome_iff_exists.mp h2
  exact (tryNormalizeSplits_inv (markExtent s m) (splitsOf (collect s res) m)
    bij r hr (hwf m hm)).1

/-- Witness for `c3_splits_disjoint`: the spec scenario
`detect([y/4, y%4])` with `y ∈ [0, 8)`, bijective. -/
theorem c3_splits_disjoint_witness :
    ((detectIterMapFull [PrimExpr.floordiv (.var 0) (.intImm 4),
        PrimExpr.floormod (.var 0) (.intImm 4)] [(0, ⟨0, 8⟩)] (.lit 1) true).2 ≠ [] ∧
     (∀ m ∈ (collect (detectIterMapFull [PrimExpr.floordiv (.var 0) (.intImm 4),
          PrimExpr.floormod (.var 0) (.intImm 4)] [(0, ⟨0, 8⟩)] (.lit 1) true).1
        (detectIterMapFull [PrimExpr.floordiv (.var 0) (.intImm 4),
          PrimExpr.floormod (.var 0) (.intImm 4)] [(0, ⟨0, 8⟩)] (.lit 1) true).2).visited,
       ∀ x ∈ splitsOf (collect (detectIterMapFull [PrimExpr.floordiv (.var 0) (.intImm 4),
          PrimExpr.floormod (.var 0) (.intImm 4)] [(0, ⟨0, 8⟩)] (.lit 1) true).1
        (detectIterMapFull [PrimExpr.floordiv (.var 0) (.intImm 4),
          PrimExpr.floormod (.var 0) (.intImm 4)] [(0, ⟨0, 8⟩)] (.lit 1) true).2) m,
         1 ≤ x.lowerFactor ∧ 1 ≤ x.extent)) ∧
    (∀ m ∈ (collect (detectIterMapFull [PrimExpr.floordiv (.var 0) (.intImm 4),
        PrimExpr.floormod (.var 0) (.intImm 4)] [(0, ⟨0, 8⟩)] (.lit 1) true).1
      (detectIterMapFull [PrimExpr.floordiv (.var 0) (.intImm 4),
        PrimExpr.floormod (.var 0) (.intImm 4)] [(0, ⟨0, 8⟩)] (.lit 1) true).2).visited,
      (splitsOf (collect (detectIterMapFull [PrimExpr.floordiv (.var 0) (.intImm 4),
          PrimExpr.floormod (.var 0) (.intImm 4)] [(0, ⟨0, 8⟩)] (.lit 1) true).1
        (detectIterMapFull [PrimExpr.floordiv (.var 0) (.intImm 4),
          PrimExpr.floormod (.var 0) (.intImm 4)] [(0, ⟨0, 8⟩)] (.lit 1) true).2) m).Pairwise
        SplitDisjoint) :=
  ⟨⟨by decide, by decide⟩,
   c3_splits_disjoint [PrimExpr.floordiv (.var 0) (.intImm 4),
       PrimExpr.floormod (.var 0) (.intImm 4)] [(0, ⟨0, 8⟩)] (.lit 1) true _ _
     rfl (by decide) (by decide)⟩

/-! ### Claim C4: bijective coverage -/

/-- Claim C4: when `DetectIterMap` succeeds with `require_bijective`,
the referencing splits of every reachable mark can be arranged into a
consecutive chain starting at lower factor 1 (each next lower factor is
the previous `lower_factor * extent`) whose extent product equals the
mark's extent, and every input-iterator mark is visited and referenced
by at least one split. -/
theorem c4_bijective_cover (indices : List PrimExpr)
    (iters : List (Nat × RangeI)) (pred : BoolExpr)
    (s : RewriterState) (res : List IterSumExpr)
    (hdet : detectIterMapFull indices iters pred true = (s, res))
    (hne : res ≠ [])
    (hwf : ∀ m ∈ (collect s res).visited, ∀ x ∈ splitsOf (collect s res) m,
      1 ≤ x.lowerFactor ∧ 1 ≤ x.extent) :
    (∀ m ∈ (collect s res).visited,
      ∃ l, l.Perm (splitsOf (collect s res) m) ∧
        IsChain 1 l (markExtent s m) ∧
        (l.map IterSplitExpr.extent).prod = markExtent s m) ∧
    (∀ m ∈ s.inputMarks,
      m ∈ (collect s res).visited ∧ splitsOf (collect s res) m ≠ []) := by
  have hcm := detect_checkMapping indices iters pred true s res hdet hne
  simp only [checkMapping, Bool.and_eq_true_iff] at hcm
  constructor
  · intro m hm
    have h2 := List.all_eq_true.mp hcm.1 m hm
    obtain ⟨r, hr⟩ := Option.isSome_iff_exists.mp h2
    exact (tryNormalizeSplits_inv (markExtent s m) (splitsOf (collect s res) m)
      true r hr (hwf m hm)).2 rfl
  · intro m hm
    have h3 := hcm.2
    simp only [Bool.not_true, Bool.false_or] at h3
    have hv := List.all_eq_true.mp h3 m hm
    have hv2 : m ∈ (collect s res).visited := by simpa using hv
    exact ⟨hv2, collect_visited_ne s res m hv2⟩

/-- Witness for `c4_bijective_cover`: the same scenario
`detect([y/4, y%4])`, `y ∈ [0, 8)`, bijective. -/
theorem c4_bijective_cover_witness :
    ((detectIterMapFull [PrimExpr.floordiv (.var 0) (.intImm 4),
        PrimExpr.floormod (.var 0) (.intImm 4)] [(0, ⟨0, 8⟩)] (.lit 1) true).2 ≠ []) ∧
    ((∀ m ∈ (collect (detectIterMapFull [PrimExpr.floordiv (.var 0) (.intImm 4),
          PrimExpr.floormod (.var 0) (.intImm 4)] [(0, ⟨0, 8⟩)] (.lit 1) true).1
        (detectIterMapFull [PrimExpr.floordiv (.var 0) (.intImm 4),
          PrimExpr.floormod (.var 0) (.intImm 4)] [(0, ⟨0, 8⟩)] (.lit 1) true).2).visited,
       ∃ l, l.Perm (splitsOf (collect (detectIterMapFull
            [PrimExpr.floordiv (.var 0) (.intImm 4),
             PrimExpr.floormod (.var 0) (.intImm 4)] [(0, ⟨0, 8⟩)] (.lit 1) true).1
          (detectIterMapFull [PrimExpr.floordiv (.var 0) (.intImm 4),
            PrimExpr.floormod (.var 0) (.intImm 4)] [(0, ⟨0, 8⟩)] (.lit 1) true).2) m) ∧
         IsChain 1 l (markExtent (detectIterMapFull
            [PrimExpr.floordiv (.var 0) (.intImm 4),
             PrimExpr.floormod (.var 0) (.intImm 4)] [(0, ⟨0, 8⟩)] (.lit 1) true).1 m) ∧
         (l.map IterSplitExpr.extent).prod = markExtent (detectIterMapFull
            [PrimExpr.floordiv (.var 0) (.intImm 4),
             PrimExpr.floormod (.var 0) (.intImm 4)] [(0, ⟨0, 8⟩)] (.lit 1) true).1 m) ∧
     (∀ m ∈ (detectIterMapFull [PrimExpr.floordiv (.var 0) (.intImm 4),
          PrimExpr.floormod (.var 0) (.intImm 4)] [(0, ⟨0, 8⟩)] (.lit 1) true).1.inputMarks,
       m ∈ (collect (detectIterMapFull [PrimExpr.floordiv (.var 0) (.intImm 4),
          PrimExpr.floormod (.var 0) (.intImm 4)] [(0, ⟨0, 8⟩)] (.lit 1) true).1
        (detectIterMapFull [PrimExpr.floordiv (.var 0) (.intImm 4),
          PrimExpr.floormod (.var 0) (.intImm 4)] [(0, ⟨0, 8⟩)] (.lit 1) true).2).visited ∧
       splitsOf (collect (detectIterMapFull [PrimExpr.floordiv (.var 0) (.intImm 4),
          PrimExpr.floormod (.var 0) (.intImm 4)] [(0, ⟨0, 8⟩)] (.lit 1) true).1
        (detectIterMapFull [PrimExpr.floordiv (.var 0) (.intImm 4),
          PrimExpr.floormod (.var 0) (.intImm 4)] [(0, ⟨0, 8⟩)] (.lit 1) true).2) m ≠ [])) :=
  ⟨by decide, c4_bijective_cover [PrimExpr.floordiv (.var 0) (.intImm 4),
       PrimExpr.floormod (.var 0) (.intImm 4)] [(0, ⟨0, 8⟩)] (.lit 1) _ _
     rfl (by decide) (by decide)⟩

/-! ### Claim C7: an unsplittable predicate -/

/-- Counterexample to claim C7 as stated: with input iterator `x ∈ [0, 4)`
and the unrecognised predicate `x == 3`, the predicate splitter returns
the empty list and the predicate is not the literal `1`; the claim then
promises that detection proceeds as with no predicate (which succeeds on
the index `[x]`), but `DetectIterMap` instead returns the empty list —
it fails outright at the guard on the collected constraints. -/
theorem c7_unusable_predicate_counterexample :
    isOnePred (BoolExpr.eqCmp (.var 0) (.intImm 3)) = false ∧
    matchBoundConstraints [0] (BoolExpr.eqCmp (.var 0) (.intImm 3)) = [] ∧
    detectIterMap [.var 0] [(0, ⟨0, 4⟩)] (BoolExpr.eqCmp (.var 0) (.intImm 3)) true = [] ∧
    detectIterMap [.var 0] [(0, ⟨0, 4⟩)] (BoolExpr.lit 1) true ≠ [] := by
  refine ⟨rfl, rfl, rfl, ?_⟩
  decide

/-- Amended claim C7: when the predicate is not the literal true and the
predicate splitter returns an empty list, `DetectIterMap` does not
proceed without constraints: it returns the empty list (fails outright).
Only the literal-true predicate takes the no-constraints path. -/
theorem c7_unusable_predicate_fails (indices : List PrimExpr)
    (iters : List (Nat × RangeI)) (pred : BoolExpr) (bij : Bool)
    (h1 : isOnePred pred = false)
    (h2 : matchBoundConstraints (iters.map Prod.fst) pred = []) :
    detectIterMap indices iters pred bij = [] := by
  simp [detectIterMap, detectIterMapFull, h1, h2]

/-- Witness for `c7_unusable_predicate_fails` at the predicate `x == 3`. -/
theorem c7_unusable_predicate_fails_witness :
    (isOnePred (BoolExpr.eqCmp (.var 0) (.intImm 3)) = false ∧
     matchBoundConstraints ([((0:Nat), (⟨0, 4⟩ : RangeI))].map Prod.fst)
       (BoolExpr.eqCmp (.var 0) (.intImm 3)) = []) ∧
    detectIterMap [.var 0] [(0, ⟨0, 4⟩)]
      (BoolExpr.eqCmp (.var 0) (.intImm 3)) true = [] :=
  ⟨⟨by decide, by decide⟩,
   c7_unusable_predicate_fails [.var 0] [(0, ⟨0, 4⟩)]
     (BoolExpr.eqCmp (.var 0) (.intImm 3)) true (by decide) (by decide)⟩

/-! ### Claim C8: the identity slice -/

/-- Counterexample to claim C8 as stated: a split with
`lower_factor = extent = E` and scale 1 does not denote the mark's own
value.  At `E = 2`, `s = 1` (which lies in `[0, E)`) the denotation
`floormod(floordiv(1, 2), 2) * 1` is 0, not 1. -/
theorem c8_identity_slice_counterexample :
    ((0:Int) ≤ 1 ∧ (1:Int) < 2) ∧
    splitDenote 1 2 2 1 = 0 ∧ splitDenote 1 2 2 1 ≠ 1 := by
  refine ⟨by decide, by decide, by decide⟩

/-- Amended claim C8: the identity slice of a mark is the split built by
the `IterSplitExpr(IterMark)` constructor — `lower_factor = scale = 1`
and `extent = source.extent` (not `lower_factor = extent = source.extent`
as stated): for every source value `s ∈ [0, E)` its denotation
`floormod(floordiv(s, 1), E) * 1` is `s` itself. -/
theorem c8_identity_slice (m : Nat) (E s : Int) (h0 : 0 ≤ s) (h1 : s < E) :
    splitDenote s (iterSplitOfMark m E).lowerFactor
      (iterSplitOfMark m E).extent (iterSplitOfMark m E).scale = s := by
  have hE : (0:Int) < E := lt_of_le_of_lt h0 h1
  simp only [iterSplitOfMark, splitDenote]
  rw [Int.fdiv_one, Int.fmod_eq_emod s (le_of_lt hE), Int.emod_eq_of_lt h0 h1,
    mul_one]

/-- Witness for `c8_identity_slice` at `E = 4`, `s = 2`. -/
theorem c8_identity_slice_witness :
    ((0:Int) ≤ 2 ∧ (2:Int) < 4) ∧
    splitDenote 2 (iterSplitOfMark 0 4).lowerFactor
      (iterSplitOfMark 0 4).extent (iterSplitOfMark 0 4).scale = 2 :=
  ⟨by decide, c8_identity_slice 0 4 2 (by decide) (by decide)⟩

/-! ### Claim C9: in-place tightening of a constraint-induced mark

With `j ∈ [0, 5)`, `k ∈ [0, 2)` and the predicate
`(j*2 + k < 9) && (j*2 + k + 0 < 8)`, both conjuncts resolve to the same
flattened form, so both tighten the same fused mark (arena slot 2): the
first `RewriteIterConstraint` of the invocation sets its extent to 9, the
second overwrites it to 8, and the invocation then succeeds.  The two
constraints have distinct node counts (5 and 7), so their processing
order is the unique ascending-size order. -/

/-- Counterexample to claim C9 as stated: during a single detection
invocation the same constraint-induced mark (arena slot 2) has its
extent written twice with different values — 9 after the first sorted
constraint of the invocation, 8 after the second — so it is not frozen
after the first tightening. -/
theorem c9_mark_retightened_counterexample :
    markExtent (rewriteConstraintsLoop (initState c9Iters)
      (List.take 1 c9Sorted)).1 2 = 9 ∧
    markExtent (rewriteConstraintsLoop (initState c9Iters) c9Sorted).1 2 = 8 ∧
    (9:Int) ≠ 8 := by
  refine ⟨rfl, rfl, by decide⟩

/-- Amended claim C9: a constraint-induced mark's extent (and memoised
offset) is rewritten once per predicate constraint that resolves to its
flattened form — so it can be updated more than once per invocation when
several constraints tie the same mark, the later write overwriting the
earlier one — and the invocation still succeeds: here detection returns
the canonical sum over the twice-tightened mark with its final extent 8. -/
theorem c9_mark_retightened_behavior :
    markExtent (rewriteConstraintsLoop (initState c9Iters)
      (List.take 1 c9Sorted)).1 2 = 9 ∧
    markExtent (rewriteConstraintsLoop (initState c9Iters) c9Sorted).1 2 = 8 ∧
    detectIterMap [c9Index] c9Iters c9Pred true = [⟨[⟨2, 1, 8, 1⟩], 0⟩] := by
  refine ⟨rfl, rfl, rfl⟩

/-! ### Claim C10: extent-one input iterators -/

/-- Claim C10: an input iterator with an extent-one range is rewritten to
the constant value of its range minimum (`IterSum({}, min)`), creates no
`IterMark` (it is absent from the input marks), and is therefore exempt
from the bijectivity usage check: with `x ∈ [0, 4)` and `w ∈ [5, 6)`
(extent 1), `detect([x])` with `require_bijective` still succeeds even
though `w` appears in no index. -/
theorem c10_extent_one_iterator :
    (initState [(0, ⟨0, 4⟩), (1, ⟨5, 1⟩)]).varMap =
      [(0, .split ⟨0, 1, 4, 1⟩), (1, .sum ⟨[], 5⟩)] ∧
    (initState [(0, ⟨0, 4⟩), (1, ⟨5, 1⟩)]).inputMarks = [0] ∧
    detectIterMap [.var 0] [(0, ⟨0, 4⟩), (1, ⟨5, 1⟩)] (.lit 1) true =
      [⟨[⟨1, 1, 4, 1⟩], 0⟩] := by
  refine ⟨rfl, rfl, rfl⟩

/-! ### Claims C1 and C2: the round trips

`TryFuseIters` documents the fused mark as denoting the unit-scale
combination `x1*s1 + ... + xn` (with `s_i = c_i / c_n`), with extent
`expected_scale / base_scale`, returning `IterSplit(mark, base_scale)`.
The code, however, stores the *original* splits — scales undivided —
as the mark's source.  Whenever the fused base scale is not one, the
lowering of `ConvertIterSplitExpr` therefore multiplies by the base
scale twice, and both round trips break on inputs as small as
`detect([x*2])` with `x ∈ [0, 4)`. -/

/-- Claim C1 fails on the code: with `x ∈ [0, 4)` and the single index
`x*2`, `detect_iter_map` succeeds (bijectively) with canonical sum
`IterSum([IterSplit(mark, lower_factor=1, extent=4, scale=2)], 0)` where
`mark = IterMark(x*2, 4)`, yet lowering that sum back yields `(x*2)*2`:
at `x = 1` (inside the declared range `[0, 0+4)`) the lowered expression
evaluates to `4` while the original index evaluates to `2`. -/
theorem c1_roundtrip_counterexample :
    detectIterMap [.mul (.var 0) (.intImm 2)] [(0, ⟨0, 4⟩)] (.lit 1) true =
      [⟨[⟨1, 1, 4, 2⟩], 0⟩] ∧
    normalizeIterMapToExpr
      (detectIterMapFull [.mul (.var 0) (.intImm 2)] [(0, ⟨0, 4⟩)] (.lit 1) true).1
      ⟨[⟨1, 1, 4, 2⟩], 0⟩ =
      .mul (.mul (.var 0) (.intImm 2)) (.intImm 2) ∧
    evalPrim (fun _ => 1) (.mul (.mul (.var 0) (.intImm 2)) (.intImm 2)) = 4 ∧
    evalPrim (fun _ => 1) (.mul (.var 0) (.intImm 2)) = 2 ∧
    ((0 : Int) ≤ 1 ∧ (1 : Int) < 0 + 4) ∧ (4 : Int) ≠ 2 := by
  refine ⟨rfl, rfl, rfl, rfl, by decide, by decide⟩

/-- Claim C2 fails on the code, for the same root cause as C1: on the
bijective success `detect([x*2])` with `x ∈ [0, 4)`, applying the
inverse transformer to the returned canonical sum with the lowered
index `(x*2)*2` as output produces the map `x ↦ (x*2)*2`; under the
in-range assignment `x = 1` that inverse expression evaluates to `4`,
not to `x`'s value `1`. -/
theorem c2_inverse_counterexample :
    detectIterMap [.mul (.var 0) (.intImm 2)] [(0, ⟨0, 4⟩)] (.lit 1) true =
      [⟨[⟨1, 1, 4, 2⟩], 0⟩] ∧
    afind (inverseAffineIterMap
      (detectIterMapFull [.mul (.var 0) (.intImm 2)] [(0, ⟨0, 4⟩)] (.lit 1) true).1
      [⟨[⟨1, 1, 4, 2⟩], 0⟩]
      [normalizeIterMapToExpr
        (detectIterMapFull [.mul (.var 0) (.intImm 2)] [(0, ⟨0, 4⟩)] (.lit 1) true).1
        ⟨[⟨1, 1, 4, 2⟩], 0⟩]) 0 =
      some (.mul (.mul (.var 0) (.intImm 2)) (.intImm 2)) ∧
    evalPrim (fun _ => 1) (.mul (.mul (.var 0) (.intImm 2)) (.intImm 2)) = 4 ∧
    ((0 : Int) ≤ 1 ∧ (1 : Int) < 0 + 4) ∧ (4 : Int) ≠ 1 := by
  refine ⟨rfl, rfl, rfl, by decide, by decide⟩

end IterMap
